import Mathlib

/-!
Shallow embedding of the TextAttack attack-orchestration engine
(`textattack/shared/attack.py`) and of the
`WordEmbeddingDistance._check_constraint` predicate
(`textattack/constraints/semantics/word_embedding_distance.py`),
together with theorems settling the specification claims.
-/

namespace TextAttack

/-- Embedding of `AttackedText` as used by the engine: per the data model,
identity and equality are by rendered text content, which is also the cache
key and the sort key of `filter_transformations`. -/
structure AttackedText where
  text : String
deriving DecidableEq, Repr

/-- Key of the constraints cache: the rendered texts of the
`(current_text, transformed_text)` pair (content-equality keyed). -/
abbrev CKey := String × String

/-- A post-transformation constraint as consumed by the engine: a boolean
predicate over (candidate, current_text, original_text). -/
abbrev PostConstraint := AttackedText → AttackedText → Option AttackedText → Bool

/-- Batch evaluation `Constraint.call_many`: returns the sub-sequence of the
candidates that satisfy the constraint. -/
def call_many (C : PostConstraint) (ts : List AttackedText) (cur : AttackedText)
    (orig : Option AttackedText) : List AttackedText :=
  ts.filter (fun t => C t cur orig)

/-- A candidate passes the whole configured post-transformation constraint
list when every constraint accepts it. -/
def passes_all (cs : List PostConstraint) (t cur : AttackedText)
    (orig : Option AttackedText) : Bool :=
  cs.all (fun C => C t cur orig)

/-- The bounded LRU constraints cache (`lru.LRU` in the source): an
association list ordered most-recently-used first, with a capacity. -/
structure ConstraintCache where
  capacity : Nat
  entries : List (CKey × Bool)
deriving DecidableEq, Repr

namespace ConstraintCache

/-- Lookup without promotion (used by the `in` membership test, which does
not change recency in `lru`). -/
def lookup (c : ConstraintCache) (k : CKey) : Option Bool :=
  (c.entries.find? (fun e => e.1 == k)).map (·.2)

/-- Store `k ↦ v` (`__setitem__`): the entry moves to the most-recent
position; if the insertion overflows the capacity the least-recently-used
entry is evicted. -/
def touchSet (c : ConstraintCache) (k : CKey) (v : Bool) : ConstraintCache :=
  { c with entries := ((k, v) :: c.entries.filter (fun e => !(e.1 == k))).take c.capacity }

/-- Lookup with promotion (`__getitem__`): a hit moves the entry to the
most-recent position; a miss leaves the cache unchanged (the source raises
`KeyError`, which callers observe through the `none`). -/
def getPromote (c : ConstraintCache) (k : CKey) : Option Bool × ConstraintCache :=
  match c.entries.find? (fun e => e.1 == k) with
  | none => (none, c)
  | some e => (some e.2, { c with entries := (k, e.2) :: c.entries.filter (fun e => !(e.1 == k)) })

/-- Well-formedness: the cache never holds more entries than its capacity. -/
def Wf (c : ConstraintCache) : Prop :=
  c.entries.length ≤ c.capacity

instance (c : ConstraintCache) : Decidable c.Wf :=
  inferInstanceAs (Decidable (c.entries.length ≤ c.capacity))

end ConstraintCache

/-- Cache key of a candidate relative to the current text. -/
def cacheKey (cur t : AttackedText) : CKey :=
  (cur.text, t.text)

/-- The cache-hit branch of `filter_transformations`:
`cache[key] = cache[key]` — a promoting read followed by a write of the same
value, whose net effect promotes the pair to the top of the LRU cache. -/
def cacheTouch (c : ConstraintCache) (k : CKey) : ConstraintCache :=
  match c.getPromote k with
  | (some v, c₁) => c₁.touchSet k v
  | (none, c₁) => c₁

/-- Shape invariant for tracking eviction: the first `S.length` entries of
the cache carry exactly the keys `S`, most-recently-used first. -/
def FrontKeys (S : List CKey) (c : ConstraintCache) : Prop :=
  (c.entries.take S.length).map Prod.fst = S

/-- The boolean `filter_transformations` resolves for a candidate: the
cached value when the pair is already cached, otherwise the verdict of the
constraint pipeline on the uncached candidates. -/
def cacheVerdict (cs : List PostConstraint) (cur : AttackedText)
    (orig : Option AttackedText) (c : ConstraintCache) (t : AttackedText) : Bool :=
  (c.lookup (cacheKey cur t)).getD (passes_all cs t cur orig)

/-- First loop of `filter_transformations`: walk the candidates in order,
collecting those with no cache entry and promoting the ones found in the
cache. -/
def collectUncached (cur : AttackedText) :
    List AttackedText → ConstraintCache → List AttackedText × ConstraintCache
  | [], c => ([], c)
  | t :: rest, c =>
    if (c.lookup (cacheKey cur t)).isSome then
      collectUncached cur rest (cacheTouch c (cacheKey cur t))
    else
      let p := collectUncached cur rest c
      (t :: p.1, p.2)

/-- One recorded invocation of a constraint's `call_many` inside the
filtering pipeline: the constraint, the candidate set it received and the
subset it accepted. -/
structure ConstraintCall where
  constraint : PostConstraint
  input : List AttackedText
  output : List AttackedText

/-- The constraint pipeline of `_filter_transformations_uncached`, with an
invocation trace: each constraint consumes the currently surviving set, and
the loop breaks as soon as that set is empty. -/
def pipelineTrace (cs : List PostConstraint) (ts : List AttackedText)
    (cur : AttackedText) (orig : Option AttackedText) :
    List AttackedText × List ConstraintCall :=
  match cs with
  | [] => (ts, [])
  | C :: rest =>
    if ts.length = 0 then (ts, [])
    else
      let ts' := call_many C ts cur orig
      let p := pipelineTrace rest ts' cur orig
      (p.1, ⟨C, ts, ts'⟩ :: p.2)

/-- Embedding of `Attack._filter_transformations_uncached`: run the
constraint pipeline, then record every original candidate as `false` in the
cache and overwrite the survivors to `true`.  Also returns the invocation
trace of the pipeline. -/
def filter_transformations_uncached (cs : List PostConstraint)
    (transformed_texts : List AttackedText) (cur : AttackedText)
    (orig : Option AttackedText) (c : ConstraintCache) :
    List AttackedText × ConstraintCache × List ConstraintCall :=
  let p := pipelineTrace cs transformed_texts cur orig
  let c₁ := transformed_texts.foldl (fun acc t => acc.touchSet (cacheKey cur t) false) c
  let c₂ := p.1.foldl (fun acc t => acc.touchSet (cacheKey cur t) true) c₁
  (p.1, c₂, p.2)

/-- Combine the cached boolean read for the head candidate with the outcome
of reading the remaining candidates: keep the head exactly when its cached
boolean is true, and propagate a `KeyError` from the tail. -/
def readStep (t : AttackedText) (b : Bool) :
    Option (List AttackedText) × ConstraintCache →
      Option (List AttackedText) × ConstraintCache
  | (none, c₂) => (none, c₂)
  | (some l, c₂) => (some (if b then t :: l else l), c₂)

/-- Final loop of `filter_transformations`: read every candidate's entry
back from the cache (a promoting read).  A missing entry is the source's
`KeyError`, reported as `none`. -/
def readCache (cur : AttackedText) :
    List AttackedText → ConstraintCache → Option (List AttackedText) × ConstraintCache
  | [], c => (some [], c)
  | t :: rest, c =>
    match c.getPromote (cacheKey cur t) with
    | (none, c₁) => (none, c₁)
    | (some b, c₁) => readStep t b (readCache cur rest c₁)

/-- Lexicographic comparison of character lists by code point, the order
Python uses to compare the rendered strings in `sort(key=lambda t: t.text)`. -/
def charListLe : List Char → List Char → Bool
  | [], _ => true
  | _ :: _, [] => false
  | a :: as, b :: bs =>
    if a < b then true
    else if b < a then false
    else charListLe as bs

/-- The sort relation of `filter_transformations`: compare candidates by
their rendered text. -/
def textLe (a b : AttackedText) : Prop :=
  charListLe a.text.data b.text.data = true

instance : DecidableRel textLe :=
  fun a b => inferInstanceAs (Decidable (charListLe a.text.data b.text.data = true))

def charListLe_total : ∀ as bs : List Char,
    charListLe as bs = true ∨ charListLe bs as = true
  | [], _ => Or.inl rfl
  | _ :: _, [] => Or.inr rfl
  | a :: as, b :: bs => by
    rcases lt_trichotomy a b with h | h | h
    · left; simp [charListLe, h]
    · subst h
      rcases charListLe_total as bs with ih | ih
      · left; simp [charListLe, lt_irrefl, ih]
      · right; simp [charListLe, lt_irrefl, ih]
    · right; simp [charListLe, h]

def charListLe_trans : ∀ as bs cs : List Char,
    charListLe as bs = true → charListLe bs cs = true → charListLe as cs = true
  | [], _, _ => fun _ _ => rfl
  | _ :: _, [], _ => by intro h _; simp [charListLe] at h
  | _ :: _, _ :: _, [] => by intro _ h; simp [charListLe] at h
  | a :: as, b :: bs, c :: cs => by
    intro h1 h2
    by_cases hab : a < b
    · by_cases hbc : b < c
      · simp [charListLe, lt_trans hab hbc]
      · by_cases hcb : c < b
        · simp [charListLe, hbc, hcb] at h2
        · have hbc' : b = c := le_antisymm (not_lt.mp hcb) (not_lt.mp hbc)
          subst hbc'
          simp [charListLe, hab]
    · by_cases hba : b < a
      · simp [charListLe, hab, hba] at h1
      · have hab' : a = b := le_antisymm (not_lt.mp hba) (not_lt.mp hab)
        subst hab'
        simp only [charListLe, if_neg (lt_irrefl a)] at h1
        by_cases hac : a < c
        · simp [charListLe, hac]
        · by_cases hca : c < a
          · simp [charListLe, hac, hca] at h2
          · have hac' : a = c := le_antisymm (not_lt.mp hca) (not_lt.mp hac)
            subst hac'
            simp only [charListLe, if_neg (lt_irrefl a)] at h2 ⊢
            exact charListLe_trans as bs cs h1 h2

def charListLe_antisymm : ∀ as bs : List Char,
    charListLe as bs = true → charListLe bs as = true → as = bs
  | [], [] => fun _ _ => rfl
  | [], _ :: _ => by intro _ h; simp [charListLe] at h
  | _ :: _, [] => by intro h _; simp [charListLe] at h
  | a :: as, b :: bs => by
    intro h1 h2
    by_cases hab : a < b
    · simp [charListLe, hab, lt_asymm hab] at h2
    · by_cases hba : b < a
      · simp [charListLe, hab, hba] at h1
      · have hab' : a = b := le_antisymm (not_lt.mp hba) (not_lt.mp hab)
        subst hab'
        simp only [charListLe, if_neg (lt_irrefl a)] at h1 h2
        rw [charListLe_antisymm as bs h1 h2]

instance : IsTotal AttackedText textLe :=
  ⟨fun a b => charListLe_total a.text.data b.text.data⟩

instance : IsTrans AttackedText textLe :=
  ⟨fun a b c => charListLe_trans a.text.data b.text.data c.text.data⟩

instance : IsAntisymm AttackedText textLe := by
  refine ⟨fun a b h1 h2 => ?_⟩
  have : a.text.data = b.text.data := charListLe_antisymm _ _ h1 h2
  cases a with
  | mk ta => cases b with
    | mk tb =>
      have : ta = tb := by
        cases ta; cases tb
        exact congrArg String.mk this
      simpa using this

/-- The final `filtered_texts.sort(key=lambda t: t.text)` of
`filter_transformations`: sorting by the rendered text.  (The source's
stable sort and this insertion sort agree because candidates with equal sort
key are equal: `AttackedText` identity is the rendered text.) -/
def sortByText (l : List AttackedText) : List AttackedText :=
  l.insertionSort textLe

/-- Embedding of `Attack.filter_transformations`: cache-first filtering.
Returns the filtered candidates (`none` when the final cache read raises
`KeyError`), the cache state after the call, and the trace of constraint
invocations made by the call. -/
def filter_transformations (cs : List PostConstraint)
    (transformed_texts : List AttackedText) (cur : AttackedText)
    (orig : Option AttackedText) (c : ConstraintCache) :
    Option (List AttackedText) × ConstraintCache × List ConstraintCall :=
  let pu := collectUncached cur transformed_texts c
  let fu := filter_transformations_uncached cs pu.1 cur orig pu.2
  let rc := readCache cur transformed_texts fu.2.1
  match rc.1 with
  | none => (none, rc.2, fu.2.2)
  | some l => (some (sortByText l), rc.2, fu.2.2)

/-- A transformation, as consumed by the engine: it produces the candidate
list from the current and original text (pre-transformation constraints and
keyword arguments are absorbed into the function). -/
abbrev Transformation := AttackedText → Option AttackedText → List AttackedText

/-- Embedding of `Attack.get_transformations`: apply the transformation,
then filter the candidates through `filter_transformations`. -/
def get_transformations (transformation : Transformation)
    (cs : List PostConstraint) (cur : AttackedText) (orig : Option AttackedText)
    (c : ConstraintCache) :
    Option (List AttackedText) × ConstraintCache × List ConstraintCall :=
  filter_transformations cs (transformation cur orig) cur orig c

/-- Embedding of `GoalFunctionResult`: the evaluated text, the recorded
output, the success flag, the score and the query count. -/
structure GoalFunctionResult where
  text : AttackedText
  output : Int
  succeeded : Bool
  score : Int
  num_queries : Nat
deriving DecidableEq, Repr

/-- A goal function, as consumed by the engine: `get_result` evaluated after
the engine resets the query counter to zero (the counter's value is folded
into the returned result). -/
abbrev GoalFunction := AttackedText → Int → GoalFunctionResult

/-- A search method, as consumed by `attack_one`: maps the initial
`GoalFunctionResult` to the final one; the second component is the goal
function's cumulative `num_queries` counter when the search completes. -/
abbrev SearchMethod := GoalFunctionResult → GoalFunctionResult × Nat

/-- The three outcome types produced by the engine. -/
inductive AttackResult where
  | successful (initial final : GoalFunctionResult) (num_queries : Nat)
  | failed (initial final : GoalFunctionResult) (num_queries : Nat)
  | skipped (result : GoalFunctionResult)
deriving DecidableEq, Repr

/-- Embedding of `Attack.attack_one`: run the search method and interpret
the final result's `succeeded` flag. -/
def attack_one (search_method : SearchMethod)
    (initial_result : GoalFunctionResult) : AttackResult :=
  let p := search_method initial_result
  if p.1.succeeded then .successful initial_result p.1 p.2
  else .failed initial_result p.1 p.2

/-- A dataset: indexed `(text, ground_truth_output)` pairs, with an optional
`label_names` attribute. -/
structure Dataset where
  data : List (String × Int)
  label_names : Option (List String)
deriving DecidableEq, Repr

/-- The `IndexError` message raised by `_get_examples_from_dataset` on an
out-of-bounds access. -/
def mkIndexErrorMsg (size i : Nat) : String :=
  "Out of bounds access of dataset. Size of data is " ++ toString size ++
    " but tried to access index " ++ toString i

/-- The index queue actually traversed:
`indices = indices if indices else deque(range(len(dataset)))` — `None` and
the empty sequence are both falsy and default to all indices in order. -/
def effectiveIndices (indices : Option (List Nat)) (n : Nat) : List Nat :=
  match indices with
  | none => List.range n
  | some l => if l.isEmpty then List.range n else l

/-- Per-example work of `_get_examples_from_dataset`: evaluate the initial
goal-function result after resetting the query counter; when it already
reports success, substitute the ground-truth output as the recorded
output. -/
def processExample (gf : GoalFunction) (text : String)
    (ground_truth_output : Int) : GoalFunctionResult :=
  let r := gf ⟨text⟩ ground_truth_output
  if r.succeeded then { r with output := ground_truth_output } else r

/-- The traversal loop of `_get_examples_from_dataset` over the index queue:
yields one initial result per index, and stops with the `IndexError` message
on the first out-of-bounds index. -/
def getExamplesLoop (gf : GoalFunction) (ds : Dataset) :
    List Nat → List GoalFunctionResult × Option String
  | [] => ([], none)
  | i :: rest =>
    match ds.data.get? i with
    | none => ([], some (mkIndexErrorMsg ds.data.length i))
    | some e =>
      let r := processExample gf e.1 e.2
      let p := getExamplesLoop gf ds rest
      (r :: p.1, p.2)

/-- Embedding of `Attack._get_examples_from_dataset`. -/
def get_examples_from_dataset (gf : GoalFunction) (ds : Dataset)
    (indices : Option (List Nat)) : List GoalFunctionResult × Option String :=
  getExamplesLoop gf ds (effectiveIndices indices ds.data.length)

/-- Embedding of `Attack.attack_dataset`: yields one outcome per produced
initial result — `Skipped` for an already-successful initial state,
otherwise the outcome of `attack_one` — propagating the traversal error.
The third component instruments the calls made to `attack_one`: the list of
initial results it was invoked on. -/
def attack_dataset (gf : GoalFunction) (search_method : SearchMethod)
    (ds : Dataset) (indices : Option (List Nat)) :
    List AttackResult × Option String × List GoalFunctionResult :=
  let p := get_examples_from_dataset gf ds indices
  (p.1.map (fun r => if r.succeeded then .skipped r else attack_one search_method r),
    p.2,
    p.1.filter (fun r => !r.succeeded))

/-- A transformation as seen at construction time: only its (optional)
`is_black_box` capability flag matters there. -/
structure TransformationSpec where
  is_black_box : Bool
deriving DecidableEq, Repr

/-- A search method as seen at construction time: its transformation
compatibility query. -/
structure SearchMethodSpec where
  check_transformation_compatibility : TransformationSpec → Bool

/-- A constraint as seen at construction time: whether it is a
pre-transformation constraint (the `isinstance` test of the source,
modelled as a capability flag per the design notes). -/
structure ConstraintSpec where
  is_pre_transformation : Bool
deriving DecidableEq, Repr

/-- The errors `Attack.__init__` raises: `NameError` for a missing required
component (the spec's ConfigurationError), `ValueError` for a search
method/transformation mismatch (the spec's CompatibilityError). -/
inductive InitError where
  | nameError (msg : String)
  | valueError (msg : String)
deriving DecidableEq, Repr

/-- The state a successful `Attack.__init__` constructs. -/
structure AttackConfig where
  constraints : List ConstraintSpec
  pre_transformation_constraints : List ConstraintSpec
  is_black_box : Bool
  constraint_cache_size : Nat
  constraints_cache : ConstraintCache
deriving DecidableEq, Repr

/-- Embedding of `Attack.__init__`: check the three required components in
source order, check search-method/transformation compatibility, then
partition the constraints preserving relative order and allocate the
constraint cache. -/
def attack_init (goal_function : Option GoalFunction)
    (constraints : List ConstraintSpec)
    (transformation : Option TransformationSpec)
    (search_method : Option SearchMethodSpec)
    (constraint_cache_size : Nat) : Except InitError AttackConfig :=
  match goal_function with
  | none => .error (.nameError
      "Cannot instantiate attack without self.goal_function for predictions")
  | some _ =>
    match search_method with
    | none => .error (.nameError "Cannot instantiate attack without search method")
    | some sm =>
      match transformation with
      | none => .error (.nameError "Cannot instantiate attack without transformation")
      | some tr =>
        if !(sm.check_transformation_compatibility tr) then
          .error (.valueError
            "SearchMethod {self.search_method} incompatible with transformation {self.transformation}")
        else
          .ok
            { constraints := constraints.filter (fun C => !C.is_pre_transformation)
              pre_transformation_constraints :=
                constraints.filter (fun C => C.is_pre_transformation)
              is_black_box := tr.is_black_box
              constraint_cache_size := constraint_cache_size
              constraints_cache := ⟨constraint_cache_size, []⟩ }

end TextAttack

namespace WED

/-- Embedding of the tokenized text consumed by
`WordEmbeddingDistance._check_constraint`: its word list and the
`newly_modified_indices` attack attribute (`none` when the attribute is
absent from `attack_attrs`). -/
structure TokenizedText where
  words : List String
  newly_modified_indices : Option (List Nat)
deriving DecidableEq, Repr

/-- A dynamically-typed Python value flowing through the loop of
`_check_constraint`: the variables `x`/`x_adv` start as tokenized texts and
are rebound to plain strings inside the loop. -/
inductive PyVal where
  | tok (t : TokenizedText)
  | str (s : String)
deriving DecidableEq, Repr

/-- Exceptions `_check_constraint` can raise: `KeyError` for the missing
`newly_modified_indices` attribute, `AttributeError` for `.words` on a
string, `IndexError` for `words[i]` out of range. -/
inductive CheckError where
  | keyError
  | attributeError
  | indexError
deriving DecidableEq, Repr

/-- Which embedding-distance comparison a loop iteration performed. -/
inductive Metric where
  | cosSim
  | mseDist
deriving DecidableEq, Repr

/-- Configuration and loaded numeric data of `WordEmbeddingDistance`
(embedding loading itself is an external collaborator; the distance tables
are abstract functions). -/
structure Config where
  include_unknown_words : Bool
  cased : Bool
  min_cos_sim : Option ℚ
  max_mse_dist : Option ℚ
  word_embedding_word2index : String → Option Nat
  cos_sim : Nat → Nat → ℚ
  mse_dist : Nat → Nat → ℚ

/-- Embedding of `get_cos_sim`: the stored matrices are indexed with
`a, b = min(a, b), max(a, b)`. -/
def get_cos_sim (cfg : Config) (a b : Nat) : ℚ :=
  cfg.cos_sim (min a b) (max a b)

/-- Embedding of `get_mse_dist`. -/
def get_mse_dist (cfg : Config) (a b : Nat) : ℚ :=
  cfg.mse_dist (min a b) (max a b)

/-- Outcome of one loop iteration: either the function returns (a value or
an exception), or the loop continues with `x`/`x_adv` rebound to the
(possibly lowercased) words at the current index. -/
inductive StepOut where
  | ret (r : Except CheckError Bool)
  | next (x x_adv : String)

/-- The MSE-distance check of a loop iteration: performed only when
`self.max_mse_dist` is truthy (present and non-zero). -/
def mseCheck (cfg : Config) (x_id x_adv_id : Nat) (x x_adv : String) :
    StepOut × List Metric :=
  match cfg.max_mse_dist with
  | some m =>
    if m ≠ 0 then
      if get_mse_dist cfg x_id x_adv_id > m then (.ret (.ok false), [.mseDist])
      else (.next x x_adv, [.mseDist])
    else (.next x x_adv, [])
  | none => (.next x x_adv, [])

/-- The cosine-similarity check of a loop iteration, followed by the MSE
check: performed only when `self.min_cos_sim` is truthy (present and
non-zero). -/
def cosCheck (cfg : Config) (x_id x_adv_id : Nat) (x x_adv : String) :
    StepOut × List Metric :=
  match cfg.min_cos_sim with
  | some m =>
    if m ≠ 0 then
      if get_cos_sim cfg x_id x_adv_id < m then (.ret (.ok false), [.cosSim])
      else
        let p := mseCheck cfg x_id x_adv_id x x_adv
        (p.1, .cosSim :: p.2)
    else mseCheck cfg x_id x_adv_id x x_adv
  | none => mseCheck cfg x_id x_adv_id x x_adv

/-- One iteration of the loop of `_check_constraint` while `x`/`x_adv` are
still tokenized texts: take the words at index `i`, lowercase them unless
the embedding is cased, look up their IDs (an unknown word continues or
rejects according to `include_unknown_words`), then run the threshold
checks. -/
def checkStep (cfg : Config) (tx ta : TokenizedText) (i : Nat) :
    StepOut × List Metric :=
  match tx.words.get? i with
  | none => (.ret (.error .indexError), [])
  | some xw =>
    match ta.words.get? i with
    | none => (.ret (.error .indexError), [])
    | some aw =>
      let x := if cfg.cased then xw else xw.toLower
      let x_adv := if cfg.cased then aw else aw.toLower
      match cfg.word_embedding_word2index x, cfg.word_embedding_word2index x_adv with
      | some x_id, some x_adv_id => cosCheck cfg x_id x_adv_id x x_adv
      | _, _ =>
        if cfg.include_unknown_words then (.next x x_adv, [])
        else (.ret (.ok false), [])

/-- The loop of `_check_constraint` over `newly_modified_indices`, starting
from dynamically-typed `x`/`x_adv`: because the loop body rebinds both
variables to strings, a second iteration reaches `.words` on a string and
raises `AttributeError`. -/
def checkFrom (cfg : Config) : PyVal → PyVal → List Nat →
    Except CheckError Bool × List Metric
  | _, _, [] => (.ok true, [])
  | .tok tx, .tok ta, i :: rest =>
    match checkStep cfg tx ta i with
    | (.ret r, log) => (r, log)
    | (.next x x_adv, log) =>
      ((checkFrom cfg (.str x) (.str x_adv) rest).1,
        log ++ (checkFrom cfg (.str x) (.str x_adv) rest).2)
  | .tok tx, .str _, i :: _ =>
    match tx.words.get? i with
    | none => (.error .indexError, [])
    | some _ => (.error .attributeError, [])
  | .str _, _, _ :: _ => (.error .attributeError, [])

/-- Embedding of `WordEmbeddingDistance._check_constraint`: raise `KeyError`
if `newly_modified_indices` is absent, otherwise run the loop.  Also
returns the instrumented list of threshold comparisons performed. -/
def check_constraint (cfg : Config) (x x_adv : TokenizedText) :
    Except CheckError Bool × List Metric :=
  match x_adv.newly_modified_indices with
  | none => (.error .keyError, [])
  | some indices => checkFrom cfg (.tok x) (.tok x_adv) indices

end WED


namespace TextAttack

/-! Basic lemmas about the LRU constraint-cache operations. -/

theorem find?_filter_ne (l : List (CKey × Bool)) (k k' : CKey) (h : k' ≠ k) :
    (l.filter (fun e => !(e.1 == k))).find? (fun e => e.1 == k') =
      l.find? (fun e => e.1 == k') := by
  induction l with
  | nil => rfl
  | cons e rest ih =>
    by_cases he : e.1 = k
    · have h1 : (e.1 == k) = true := beq_iff_eq.mpr he
      have h2 : (e.1 == k') = false := by
        refine beq_eq_false_iff_ne.mpr ?_
        rw [he]
        exact fun hh => h hh.symm
      rw [List.filter_cons, if_neg (by simp [h1]),
        List.find?_cons_of_neg _ (by simp [h2]), ih]
    · have h1 : (e.1 == k) = false := beq_eq_false_iff_ne.mpr he
      by_cases he' : e.1 = k'
      · have h2 : (e.1 == k') = true := beq_iff_eq.mpr he'
        rw [List.filter_cons, if_pos (by simp [h1])]
        simp only [List.find?, h2]
      · have h2 : (e.1 == k') = false := beq_eq_false_iff_ne.mpr he'
        rw [List.filter_cons, if_pos (by simp [h1]),
          List.find?_cons_of_neg _ (by simp [h2]),
          List.find?_cons_of_neg _ (by simp [h2]), ih]

theorem find?_filter_self_none (l : List (CKey × Bool)) (k : CKey) :
    (l.filter (fun e => !(e.1 == k))).find? (fun e => e.1 == k) = none := by
  rw [List.find?_eq_none]
  intro e he
  have h2 := (List.mem_filter.mp he).2
  simp only [Bool.not_eq_true'] at h2
  simp [h2]

theorem find?_take_eq_some {α : Type} {p : α → Bool} :
    ∀ (n : Nat) (l : List α) (a : α), (l.take n).find? p = some a → l.find? p = some a
  | 0, _, _ => by intro h; simp at h
  | _ + 1, [], _ => by intro h; simp at h
  | n + 1, x :: xs, a => by
    intro h
    rw [List.take_succ_cons] at h
    by_cases hx : p x
    · rwa [List.find?_cons_of_pos _ hx] at h ⊢
    · rw [List.find?_cons_of_neg _ hx] at h ⊢
      exact find?_take_eq_some n xs a h

theorem length_filter_lt_of_find? {l : List (CKey × Bool)} {k : CKey} {e : CKey × Bool}
    (h : l.find? (fun e => e.1 == k) = some e) :
    (l.filter (fun e => !(e.1 == k))).length < l.length := by
  induction l with
  | nil => simp at h
  | cons a rest ih =>
    by_cases ha : (a.1 == k) = true
    · rw [List.filter_cons, if_neg (by simp [ha])]
      exact Nat.lt_succ_of_le (List.length_filter_le _ _)
    · rw [List.find?_cons_of_neg _ (by simp [ha])] at h
      rw [List.filter_cons, if_pos (by simp [ha])]
      simpa using ih h

theorem ConstraintCache.lookup_getPromote_fst (c : ConstraintCache) (k : CKey) :
    (c.getPromote k).1 = c.lookup k := by
  unfold ConstraintCache.getPromote ConstraintCache.lookup
  cases h : c.entries.find? (fun e => e.1 == k) <;> simp [h]

theorem ConstraintCache.lookup_getPromote_snd (c : ConstraintCache) (k k' : CKey) :
    (c.getPromote k).2.lookup k' = c.lookup k' := by
  unfold ConstraintCache.getPromote
  cases hf : c.entries.find? (fun e => e.1 == k) with
  | none => rfl
  | some e =>
    by_cases hkk : k' = k
    · subst hkk
      unfold ConstraintCache.lookup
      simp only []
      rw [List.find?_cons_of_pos _ (by simp), hf]
      have he := List.find?_some hf
      rfl
    · unfold ConstraintCache.lookup
      simp only []
      rw [List.find?_cons_of_neg _ (by simp; exact fun hh => hkk hh.symm),
        find?_filter_ne _ _ _ hkk]

theorem ConstraintCache.capacity_getPromote (c : ConstraintCache) (k : CKey) :
    (c.getPromote k).2.capacity = c.capacity := by
  unfold ConstraintCache.getPromote
  cases hf : c.entries.find? (fun e => e.1 == k) <;> rfl

theorem ConstraintCache.getPromote_Wf (c : ConstraintCache) (k : CKey) (h : c.Wf) :
    (c.getPromote k).2.Wf := by
  unfold ConstraintCache.getPromote
  cases hf : c.entries.find? (fun e => e.1 == k) with
  | none => exact h
  | some e =>
    unfold ConstraintCache.Wf at h ⊢
    simp only [List.length_cons]
    have := length_filter_lt_of_find? hf
    omega

theorem ConstraintCache.touchSet_Wf (c : ConstraintCache) (k : CKey) (v : Bool) :
    (c.touchSet k v).Wf := by
  unfold ConstraintCache.touchSet ConstraintCache.Wf
  simp only [List.length_take]
  omega

theorem ConstraintCache.capacity_touchSet (c : ConstraintCache) (k : CKey) (v : Bool) :
    (c.touchSet k v).capacity = c.capacity := rfl

theorem ConstraintCache.lookup_touchSet_self (c : ConstraintCache) (k : CKey) (v : Bool)
    (h : 1 ≤ c.capacity) : (c.touchSet k v).lookup k = some v := by
  unfold ConstraintCache.touchSet ConstraintCache.lookup
  simp only []
  cases hcap : c.capacity with
  | zero => omega
  | succ n =>
    rw [List.take_succ_cons, List.find?_cons_of_pos _ (by simp)]
    rfl

theorem ConstraintCache.lookup_touchSet_self_or (c : ConstraintCache) (k : CKey) (v : Bool) :
    (c.touchSet k v).lookup k = none ∨ (c.touchSet k v).lookup k = some v := by
  cases Nat.eq_zero_or_pos c.capacity with
  | inl h0 =>
    left
    unfold ConstraintCache.touchSet ConstraintCache.lookup
    simp [h0]
  | inr hpos => exact Or.inr (ConstraintCache.lookup_touchSet_self c k v hpos)

theorem ConstraintCache.lookup_touchSet_other (c : ConstraintCache) (k k' : CKey) (v : Bool)
    (h : k' ≠ k) :
    (c.touchSet k v).lookup k' = none ∨ (c.touchSet k v).lookup k' = c.lookup k' := by
  unfold ConstraintCache.touchSet ConstraintCache.lookup
  simp only []
  cases hf : (((k, v) :: c.entries.filter (fun e => !(e.1 == k))).take c.capacity).find?
      (fun e => e.1 == k') with
  | none => left; rfl
  | some a =>
    right
    have h1 := find?_take_eq_some _ _ _ hf
    rw [List.find?_cons_of_neg _ (by simp; exact fun hh => h hh.symm),
      find?_filter_ne _ _ _ h] at h1
    rw [h1]

theorem ConstraintCache.lookup_touchSet_none (c : ConstraintCache) (k k' : CKey) (v : Bool)
    (h : k' ≠ k) (h0 : c.lookup k' = none) : (c.touchSet k v).lookup k' = none := by
  rcases ConstraintCache.lookup_touchSet_other c k k' v h with h1 | h1
  · exact h1
  · rw [h1, h0]

theorem cacheTouch_eq (c : ConstraintCache) (k : CKey) (hwf : c.Wf)
    (hk : (c.lookup k).isSome) : cacheTouch c k = (c.getPromote k).2 := by
  have hf : ∃ e, c.entries.find? (fun e => e.1 == k) = some e := by
    unfold ConstraintCache.lookup at hk
    cases hfind : c.entries.find? (fun e => e.1 == k) with
    | none => rw [hfind] at hk; simp at hk
    | some e => exact ⟨e, rfl⟩
  rcases hf with ⟨e, hf⟩
  unfold cacheTouch ConstraintCache.getPromote
  rw [hf]
  simp only []
  unfold ConstraintCache.touchSet
  congr 1
  rw [List.filter_cons, if_neg (by simp), List.filter_filter]
  have hcongr : List.filter (fun a => (!(a.1 == k)) && (!(a.1 == k))) c.entries =
      List.filter (fun a => !(a.1 == k)) c.entries :=
    List.filter_congr (fun x _ => Bool.and_self _)
  rw [hcongr]
  apply List.take_of_length_le
  have h1 := length_filter_lt_of_find? hf
  have h2 : c.entries.length ≤ c.capacity := hwf
  simp only [List.length_cons]
  omega

theorem cacheTouch_lookup (c : ConstraintCache) (k k' : CKey) (hwf : c.Wf)
    (hk : (c.lookup k).isSome) : (cacheTouch c k).lookup k' = c.lookup k' := by
  rw [cacheTouch_eq c k hwf hk, ConstraintCache.lookup_getPromote_snd]

theorem cacheTouch_Wf (c : ConstraintCache) (k : CKey) (hwf : c.Wf)
    (hk : (c.lookup k).isSome) : (cacheTouch c k).Wf := by
  rw [cacheTouch_eq c k hwf hk]
  exact ConstraintCache.getPromote_Wf c k hwf

theorem cacheTouch_capacity (c : ConstraintCache) (k : CKey) (hwf : c.Wf)
    (hk : (c.lookup k).isSome) : (cacheTouch c k).capacity = c.capacity := by
  rw [cacheTouch_eq c k hwf hk]
  exact ConstraintCache.capacity_getPromote c k

end TextAttack

namespace TextAttack

/-! Lemmas about the `FrontKeys` shape invariant: a freshly touched key sits
at the front of the cache, and previously fronted keys are pushed back by at
most one position, so at most the least-recently-used entry is evicted. -/

theorem frontKeys_nil (c : ConstraintCache) : FrontKeys [] c := by
  simp [FrontKeys]

theorem FrontKeys.lookup_isSome {S : List CKey} {c : ConstraintCache}
    (hFK : FrontKeys S c) {k : CKey} (hk : k ∈ S) : (c.lookup k).isSome := by
  unfold FrontKeys at hFK
  rw [← hFK] at hk
  rcases List.mem_map.mp hk with ⟨e, he_mem, he_k⟩
  have h1 : (c.entries.find? (fun e => e.1 == k)).isSome :=
    List.find?_isSome.mpr ⟨e, List.take_subset _ _ he_mem, beq_iff_eq.mpr he_k⟩
  unfold ConstraintCache.lookup
  cases hfind : c.entries.find? (fun e => e.1 == k) with
  | none => rw [hfind] at h1; simp at h1
  | some a => simp

theorem nodup_cons_erase {S : List CKey} (hS : S.Nodup) (k : CKey) :
    (k :: S.erase k).Nodup := by
  refine List.nodup_cons.mpr ⟨?_, hS.erase k⟩
  intro hmem
  exact ((List.Nodup.mem_erase_iff hS).mp hmem).1 rfl

theorem subset_cons_erase {S : List CKey} (k : CKey) : S ⊆ k :: S.erase k := by
  intro x hx
  by_cases hxk : x = k
  · exact hxk ▸ List.mem_cons_self _ _
  · exact List.mem_cons_of_mem _ ((List.mem_erase_of_ne hxk).mpr hx)

theorem map_fst_filter_front {S : List CKey} {P : List (CKey × Bool)} (k : CKey)
    (hS : S.Nodup) (hmap : P.map Prod.fst = S) :
    (P.filter (fun e => !(e.1 == k))).map Prod.fst = S.erase k := by
  rw [List.Nodup.erase_eq_filter hS k, ← hmap, List.map_filter]
  congr 1

theorem FrontKeys.touchSet {S : List CKey} {c : ConstraintCache} (k : CKey) (v : Bool)
    (hS : S.Nodup) (hFK : FrontKeys S c)
    (hlen : (k :: S.erase k).length ≤ c.capacity) :
    FrontKeys (k :: S.erase k) (c.touchSet k v) := by
  have hPR := List.take_append_drop S.length c.entries
  have hsplit : c.entries.filter (fun e => !(e.1 == k)) =
      (c.entries.take S.length).filter (fun e => !(e.1 == k)) ++
        (c.entries.drop S.length).filter (fun e => !(e.1 == k)) := by
    conv_lhs => rw [← hPR]
    rw [List.filter_append]
  have hmapP : ((c.entries.take S.length).filter (fun e => !(e.1 == k))).map Prod.fst =
      S.erase k := map_fst_filter_front k hS hFK
  have hlenP : ((c.entries.take S.length).filter (fun e => !(e.1 == k))).length =
      (S.erase k).length := by
    rw [← hmapP, List.length_map]
  unfold FrontKeys ConstraintCache.touchSet
  simp only [List.length_cons]
  rw [List.take_take]
  have hmin : ((S.erase k).length + 1) ⊓ c.capacity = (S.erase k).length + 1 := by
    simp only [List.length_cons] at hlen
    omega
  rw [hmin, List.take_succ_cons, hsplit, ← hlenP, List.take_left, List.map_cons]
  simp [hmapP]

theorem FrontKeys.getPromote {S : List CKey} {c : ConstraintCache} (k : CKey)
    (hS : S.Nodup) (hFK : FrontKeys S c) (hk : (c.lookup k).isSome) :
    FrontKeys (k :: S.erase k) (c.getPromote k).2 := by
  have hf : ∃ e, c.entries.find? (fun e => e.1 == k) = some e := by
    unfold ConstraintCache.lookup at hk
    cases hfind : c.entries.find? (fun e => e.1 == k) with
    | none => rw [hfind] at hk; simp at hk
    | some e => exact ⟨e, rfl⟩
  rcases hf with ⟨e, hf⟩
  have hPR := List.take_append_drop S.length c.entries
  have hsplit : c.entries.filter (fun e => !(e.1 == k)) =
      (c.entries.take S.length).filter (fun e => !(e.1 == k)) ++
        (c.entries.drop S.length).filter (fun e => !(e.1 == k)) := by
    conv_lhs => rw [← hPR]
    rw [List.filter_append]
  have hmapP : ((c.entries.take S.length).filter (fun e => !(e.1 == k))).map Prod.fst =
      S.erase k := map_fst_filter_front k hS hFK
  have hlenP : ((c.entries.take S.length).filter (fun e => !(e.1 == k))).length =
      (S.erase k).length := by
    rw [← hmapP, List.length_map]
  unfold FrontKeys ConstraintCache.getPromote
  rw [hf]
  simp only [List.length_cons]
  rw [List.take_succ_cons, hsplit, ← hlenP, List.take_left, List.map_cons]
  simp [hmapP]

theorem FrontKeys.cacheTouch {S : List CKey} {c : ConstraintCache} (k : CKey)
    (hS : S.Nodup) (hFK : FrontKeys S c) (hwf : c.Wf) (hk : (c.lookup k).isSome) :
    FrontKeys (k :: S.erase k) (cacheTouch c k) := by
  rw [cacheTouch_eq c k hwf hk]
  exact FrontKeys.getPromote k hS hFK hk

end TextAttack

namespace TextAttack

/-! Lemmas about the two cache-write loops of
`_filter_transformations_uncached`, the collection loop, the final read
loop, and the constraint pipeline. -/

theorem lookup_foldl_touchSet_not_mem (cur : AttackedText) (v : Bool) :
    ∀ (ts : List AttackedText) (c : ConstraintCache) (k : CKey),
      (∀ t ∈ ts, cacheKey cur t ≠ k) →
      (ts.foldl (fun acc t => acc.touchSet (cacheKey cur t) v) c).lookup k = none ∨
      (ts.foldl (fun acc t => acc.touchSet (cacheKey cur t) v) c).lookup k = c.lookup k
  | [], _, _, _ => Or.inr rfl
  | t :: rest, c, k, h => by
    simp only [List.foldl_cons]
    have hstep := ConstraintCache.lookup_touchSet_other c (cacheKey cur t) k v
      (fun hh => h t (List.mem_cons_self _ _) hh.symm)
    have ih := lookup_foldl_touchSet_not_mem cur v rest (c.touchSet (cacheKey cur t) v) k
      (fun t' ht' => h t' (List.mem_cons_of_mem _ ht'))
    rcases ih with h1 | h1
    · exact Or.inl h1
    · rcases hstep with h2 | h2
      · exact Or.inl (h1.trans h2)
      · exact Or.inr (h1.trans h2)

theorem lookup_foldl_touchSet_mem (cur : AttackedText) (v : Bool) :
    ∀ (ts : List AttackedText) (c : ConstraintCache) (k : CKey),
      k ∈ ts.map (cacheKey cur) →
      (ts.foldl (fun acc t => acc.touchSet (cacheKey cur t) v) c).lookup k = none ∨
      (ts.foldl (fun acc t => acc.touchSet (cacheKey cur t) v) c).lookup k = some v
  | [], _, k, h => by simp at h
  | t :: rest, c, k, h => by
    simp only [List.foldl_cons]
    by_cases hk : k ∈ rest.map (cacheKey cur)
    · exact lookup_foldl_touchSet_mem cur v rest _ k hk
    · have hkey : cacheKey cur t = k := by
        simp only [List.map_cons, List.mem_cons] at h
        rcases h with h | h
        · exact h.symm
        · exact absurd h hk
      have hself := ConstraintCache.lookup_touchSet_self_or c (cacheKey cur t) v
      have hne : ∀ t' ∈ rest, cacheKey cur t' ≠ k := by
        intro t' ht' hh
        exact hk (hh ▸ List.mem_map_of_mem _ ht')
      rcases lookup_foldl_touchSet_not_mem cur v rest
          (c.touchSet (cacheKey cur t) v) k hne with h1 | h1
      · exact Or.inl h1
      · rw [h1, ← hkey]
        exact hself

theorem foldl_touchSet_Wf (cur : AttackedText) (v : Bool) :
    ∀ (ts : List AttackedText) (c : ConstraintCache), c.Wf →
      (ts.foldl (fun acc t => acc.touchSet (cacheKey cur t) v) c).Wf
  | [], _, h => h
  | t :: rest, c, _ => by
    simp only [List.foldl_cons]
    exact foldl_touchSet_Wf cur v rest _ (ConstraintCache.touchSet_Wf c _ v)

theorem foldl_touchSet_capacity (cur : AttackedText) (v : Bool) :
    ∀ (ts : List AttackedText) (c : ConstraintCache),
      (ts.foldl (fun acc t => acc.touchSet (cacheKey cur t) v) c).capacity = c.capacity
  | [], _ => rfl
  | t :: rest, c => by
    simp only [List.foldl_cons]
    exact foldl_touchSet_capacity cur v rest _

theorem frontKeys_foldl_touchSet (cur : AttackedText) (v : Bool) (K : List CKey) :
    ∀ (ts : List AttackedText) (c : ConstraintCache) (S : List CKey),
      S.Nodup → FrontKeys S c → S ⊆ K → (∀ t ∈ ts, cacheKey cur t ∈ K) →
      K.length ≤ c.capacity →
      ∃ S', S'.Nodup ∧
        FrontKeys S' (ts.foldl (fun acc t => acc.touchSet (cacheKey cur t) v) c) ∧
        S ⊆ S' ∧ (∀ t ∈ ts, cacheKey cur t ∈ S') ∧ S' ⊆ K
  | [], _, S, hS, hFK, hSK, _, _ => ⟨S, hS, hFK, fun _ hx => hx, by simp, hSK⟩
  | t :: rest, c, S, hS, hFK, hSK, hts, hcap => by
    simp only [List.foldl_cons]
    have hkK : cacheKey cur t ∈ K := hts t (List.mem_cons_self _ _)
    have hS1 : (cacheKey cur t :: S.erase (cacheKey cur t)).Nodup := nodup_cons_erase hS _
    have hS1K : (cacheKey cur t :: S.erase (cacheKey cur t)) ⊆ K := by
      intro x hx
      rcases List.mem_cons.mp hx with rfl | hx
      · exact hkK
      · exact hSK (List.erase_subset _ _ hx)
    have hlen : (cacheKey cur t :: S.erase (cacheKey cur t)).length ≤ c.capacity :=
      le_trans (List.subperm_of_subset hS1 hS1K).length_le hcap
    have hFK1 := FrontKeys.touchSet (cacheKey cur t) v hS hFK hlen
    obtain ⟨S', hS', hFK', hsub', hmem', hS'K⟩ :=
      frontKeys_foldl_touchSet cur v K rest (c.touchSet (cacheKey cur t) v) _
        hS1 hFK1 hS1K (fun t' ht' => hts t' (List.mem_cons_of_mem _ ht'))
        (by rw [ConstraintCache.capacity_touchSet]; exact hcap)
    refine ⟨S', hS', hFK', (subset_cons_erase _).trans hsub', ?_, hS'K⟩
    intro t' ht'
    rcases List.mem_cons.mp ht' with rfl | ht'
    · exact hsub' (List.mem_cons_self _ _)
    · exact hmem' t' ht'

theorem collectUncached_fst (cur : AttackedText) :
    ∀ (ts : List AttackedText) (c : ConstraintCache), c.Wf →
      (collectUncached cur ts c).1 =
        ts.filter (fun t => !(c.lookup (cacheKey cur t)).isSome)
  | [], _, _ => rfl
  | t :: rest, c, hwf => by
    unfold collectUncached
    by_cases hc : (c.lookup (cacheKey cur t)).isSome
    · simp only [if_pos hc]
      rw [collectUncached_fst cur rest _ (cacheTouch_Wf c _ hwf hc)]
      rw [List.filter_cons, if_neg (by simp [hc])]
      apply List.filter_congr
      intro t' _
      rw [cacheTouch_lookup c _ _ hwf hc]
    · simp only [if_neg hc]
      rw [List.filter_cons, if_pos (by simp [hc])]
      rw [collectUncached_fst cur rest c hwf]

theorem collectUncached_lookup (cur : AttackedText) :
    ∀ (ts : List AttackedText) (c : ConstraintCache), c.Wf → ∀ k,
      (collectUncached cur ts c).2.lookup k = c.lookup k
  | [], _, _, _ => rfl
  | t :: rest, c, hwf, k => by
    unfold collectUncached
    by_cases hc : (c.lookup (cacheKey cur t)).isSome
    · simp only [if_pos hc]
      rw [collectUncached_lookup cur rest _ (cacheTouch_Wf c _ hwf hc) k]
      exact cacheTouch_lookup c _ k hwf hc
    · simp only [if_neg hc]
      exact collectUncached_lookup cur rest c hwf k

theorem collectUncached_Wf (cur : AttackedText) :
    ∀ (ts : List AttackedText) (c : ConstraintCache), c.Wf →
      (collectUncached cur ts c).2.Wf
  | [], _, hwf => hwf
  | t :: rest, c, hwf => by
    unfold collectUncached
    by_cases hc : (c.lookup (cacheKey cur t)).isSome
    · simp only [if_pos hc]
      exact collectUncached_Wf cur rest _ (cacheTouch_Wf c _ hwf hc)
    · simp only [if_neg hc]
      exact collectUncached_Wf cur rest c hwf

theorem collectUncached_capacity (cur : AttackedText) :
    ∀ (ts : List AttackedText) (c : ConstraintCache), c.Wf →
      (collectUncached cur ts c).2.capacity = c.capacity
  | [], _, _ => rfl
  | t :: rest, c, hwf => by
    unfold collectUncached
    by_cases hc : (c.lookup (cacheKey cur t)).isSome
    · simp only [if_pos hc]
      rw [collectUncached_capacity cur rest _ (cacheTouch_Wf c _ hwf hc)]
      exact cacheTouch_capacity c _ hwf hc
    · simp only [if_neg hc]
      exact collectUncached_capacity cur rest c hwf

theorem frontKeys_collectUncached (cur : AttackedText) (K : List CKey) :
    ∀ (ts : List AttackedText) (c : ConstraintCache) (S : List CKey),
      c.Wf → S.Nodup → FrontKeys S c → S ⊆ K →
      (∀ t ∈ ts, cacheKey cur t ∈ K) → K.length ≤ c.capacity →
      ∃ S', S'.Nodup ∧ FrontKeys S' (collectUncached cur ts c).2 ∧ S ⊆ S' ∧ S' ⊆ K ∧
        (∀ t ∈ ts, (c.lookup (cacheKey cur t)).isSome → cacheKey cur t ∈ S')
  | [], _, S, _, hS, hFK, hSK, _, _ => ⟨S, hS, hFK, fun _ hx => hx, hSK, by simp⟩
  | t :: rest, c, S, hwf, hS, hFK, hSK, hts, hcap => by
    unfold collectUncached
    by_cases hc : (c.lookup (cacheKey cur t)).isSome
    · simp only [if_pos hc]
      have hkK : cacheKey cur t ∈ K := hts t (List.mem_cons_self _ _)
      have hS1 : (cacheKey cur t :: S.erase (cacheKey cur t)).Nodup := nodup_cons_erase hS _
      have hS1K : (cacheKey cur t :: S.erase (cacheKey cur t)) ⊆ K := by
        intro x hx
        rcases List.mem_cons.mp hx with rfl | hx
        · exact hkK
        · exact hSK (List.erase_subset _ _ hx)
      have hFK1 := FrontKeys.cacheTouch (cacheKey cur t) hS hFK hwf hc
      obtain ⟨S', hS', hFK', hsub', hS'K, hmem'⟩ :=
        frontKeys_collectUncached cur K rest (cacheTouch c (cacheKey cur t)) _
          (cacheTouch_Wf c _ hwf hc) hS1 hFK1 hS1K
          (fun t' ht' => hts t' (List.mem_cons_of_mem _ ht'))
          (by rw [cacheTouch_capacity c _ hwf hc]; exact hcap)
      refine ⟨S', hS', hFK', (subset_cons_erase _).trans hsub', hS'K, ?_⟩
      intro t' ht' hsome
      rcases List.mem_cons.mp ht' with rfl | ht'
      · exact hsub' (List.mem_cons_self _ _)
      · refine hmem' t' ht' ?_
        rw [cacheTouch_lookup c _ _ hwf hc]
        exact hsome
    · simp only [if_neg hc]
      obtain ⟨S', hS', hFK', hsub', hS'K, hmem'⟩ :=
        frontKeys_collectUncached cur K rest c S hwf hS hFK hSK
          (fun t' ht' => hts t' (List.mem_cons_of_mem _ ht')) hcap
      refine ⟨S', hS', hFK', hsub', hS'K, ?_⟩
      intro t' ht' hsome
      rcases List.mem_cons.mp ht' with rfl | ht'
      · exact absurd hsome hc
      · exact hmem' t' ht' hsome

theorem readCache_spec (cur : AttackedText) :
    ∀ (ts : List AttackedText) (c : ConstraintCache), c.Wf →
      (∀ t ∈ ts, (c.lookup (cacheKey cur t)).isSome) →
      (readCache cur ts c).1 =
          some (ts.filter (fun t => (c.lookup (cacheKey cur t)).getD false)) ∧
        (∀ k, (readCache cur ts c).2.lookup k = c.lookup k) ∧
        (readCache cur ts c).2.Wf ∧ (readCache cur ts c).2.capacity = c.capacity
  | [], _, hwf, _ => ⟨rfl, fun _ => rfl, hwf, rfl⟩
  | t :: rest, c, hwf, h => by
    obtain ⟨b, hb⟩ : ∃ b, c.lookup (cacheKey cur t) = some b :=
      Option.isSome_iff_exists.mp (h t (List.mem_cons_self _ _))
    have hg1 : (c.getPromote (cacheKey cur t)).1 = some b := by
      rw [ConstraintCache.lookup_getPromote_fst, hb]
    unfold readCache
    rcases hgp : c.getPromote (cacheKey cur t) with ⟨ob, c₁⟩
    have hob : ob = some b := by rw [← hg1, hgp]
    subst hob
    have hc₁look : ∀ k, c₁.lookup k = c.lookup k := by
      intro k
      have h2 := ConstraintCache.lookup_getPromote_snd c (cacheKey cur t) k
      rw [hgp] at h2
      exact h2
    have hc₁wf : c₁.Wf := by
      have h2 := ConstraintCache.getPromote_Wf c (cacheKey cur t) hwf
      rw [hgp] at h2
      exact h2
    have hc₁cap : c₁.capacity = c.capacity := by
      have h2 := ConstraintCache.capacity_getPromote c (cacheKey cur t)
      rw [hgp] at h2
      exact h2
    obtain ⟨hfst, hlook, hwf', hcap'⟩ := readCache_spec cur rest c₁ hc₁wf
      (by
        intro t' ht'
        rw [hc₁look]
        exact h t' (List.mem_cons_of_mem _ ht'))
    dsimp only
    rcases hrc : readCache cur rest c₁ with ⟨ol, c₂⟩
    have hol : ol = some (rest.filter (fun t' => (c₁.lookup (cacheKey cur t')).getD false)) := by
      rw [← hfst, hrc]
    subst hol
    have hc₂look : ∀ k, c₂.lookup k = c.lookup k := by
      intro k
      have h2 := hlook k
      rw [hrc] at h2
      rw [← hc₁look k, ← h2]
    have hc₂wf : c₂.Wf := by
      rw [hrc] at hwf'
      exact hwf'
    have hc₂cap : c₂.capacity = c.capacity := by
      rw [hrc] at hcap'
      rw [← hc₁cap, ← hcap']
    have hfilter : List.filter (fun t' => (c₁.lookup (cacheKey cur t')).getD false) rest =
        List.filter (fun t' => (c.lookup (cacheKey cur t')).getD false) rest :=
      List.filter_congr (fun t' _ => by rw [hc₁look])
    dsimp only [readStep]
    refine ⟨?_, hc₂look, hc₂wf, hc₂cap⟩
    rw [List.filter_cons, hb]
    simp only [Option.getD_some]
    rw [hfilter]

theorem pipelineTrace_fst (cur : AttackedText) (orig : Option AttackedText) :
    ∀ (cs : List PostConstraint) (ts : List AttackedText),
      (pipelineTrace cs ts cur orig).1 = ts.filter (fun t => passes_all cs t cur orig)
  | [], ts => by
    simp [pipelineTrace, passes_all]
  | C :: rest, ts => by
    unfold pipelineTrace
    by_cases h0 : ts.length = 0
    · have hnil : ts = [] := List.length_eq_zero.mp h0
      subst hnil
      simp
    · simp only [if_neg h0]
      rw [pipelineTrace_fst cur orig rest (call_many C ts cur orig)]
      unfold call_many
      rw [List.filter_filter]
      apply List.filter_congr
      intro t _
      simp [passes_all, Bool.and_comm]

theorem pipelineTrace_nil_input (cs : List PostConstraint) (cur : AttackedText)
    (orig : Option AttackedText) : pipelineTrace cs [] cur orig = ([], []) := by
  cases cs <;> simp [pipelineTrace]

end TextAttack

namespace TextAttack

/-! Characterisation of the cache state after
`_filter_transformations_uncached`. -/

theorem cacheKey_inj (cur : AttackedText) {t t' : AttackedText}
    (h : cacheKey cur t = cacheKey cur t') : t = t' := by
  have h2 : t.text = t'.text := congrArg Prod.snd h
  cases t
  cases t'
  simpa using h2

theorem uncached_lookup_not_mem (cs : List PostConstraint) (u : List AttackedText)
    (cur : AttackedText) (orig : Option AttackedText) (c : ConstraintCache) (k : CKey)
    (hne : ∀ t' ∈ u, cacheKey cur t' ≠ k) :
    (filter_transformations_uncached cs u cur orig c).2.1.lookup k = none ∨
    (filter_transformations_uncached cs u cur orig c).2.1.lookup k = c.lookup k := by
  unfold filter_transformations_uncached
  dsimp only
  have hne2 : ∀ t' ∈ (pipelineTrace cs u cur orig).1, cacheKey cur t' ≠ k := by
    intro t' ht'
    rw [pipelineTrace_fst] at ht'
    exact hne t' (List.mem_filter.mp ht').1
  have h1 := lookup_foldl_touchSet_not_mem cur true _
    (u.foldl (fun acc t => acc.touchSet (cacheKey cur t) false) c) k hne2
  have h2 := lookup_foldl_touchSet_not_mem cur false u c k hne
  rcases h1 with h1 | h1
  · exact Or.inl h1
  · rcases h2 with h2 | h2
    · exact Or.inl (h1.trans h2)
    · exact Or.inr (h1.trans h2)

theorem uncached_lookup_or (cs : List PostConstraint) (u : List AttackedText)
    (cur : AttackedText) (orig : Option AttackedText) (c : ConstraintCache) :
    ∀ t ∈ u,
      (filter_transformations_uncached cs u cur orig c).2.1.lookup (cacheKey cur t) = none ∨
      (filter_transformations_uncached cs u cur orig c).2.1.lookup (cacheKey cur t) =
        some (passes_all cs t cur orig) := by
  intro t ht
  unfold filter_transformations_uncached
  dsimp only
  by_cases hp : passes_all cs t cur orig = true
  · have hmem : cacheKey cur t ∈ ((pipelineTrace cs u cur orig).1).map (cacheKey cur) := by
      rw [pipelineTrace_fst]
      exact List.mem_map_of_mem _ (List.mem_filter.mpr ⟨ht, hp⟩)
    have h1 := lookup_foldl_touchSet_mem cur true _
      (u.foldl (fun acc t => acc.touchSet (cacheKey cur t) false) c) _ hmem
    rw [hp]
    exact h1
  · have hpf : passes_all cs t cur orig = false := by
      revert hp
      cases passes_all cs t cur orig <;> simp
    have hne : ∀ t' ∈ (pipelineTrace cs u cur orig).1,
        cacheKey cur t' ≠ cacheKey cur t := by
      intro t' ht' heq
      have heq' := cacheKey_inj cur heq
      subst heq'
      rw [pipelineTrace_fst] at ht'
      rw [(List.mem_filter.mp ht').2] at hpf
      exact Bool.true_eq_false.mp hpf
    have h1 := lookup_foldl_touchSet_not_mem cur true _
      (u.foldl (fun acc t => acc.touchSet (cacheKey cur t) false) c) _ hne
    have hmemF : cacheKey cur t ∈ u.map (cacheKey cur) := List.mem_map_of_mem _ ht
    have h2 := lookup_foldl_touchSet_mem cur false u c _ hmemF
    rw [hpf]
    rcases h1 with h1 | h1
    · exact Or.inl h1
    · rcases h2 with h2 | h2
      · exact Or.inl (h1.trans h2)
      · exact Or.inr (h1.trans h2)

theorem uncached_Wf (cs : List PostConstraint) (u : List AttackedText)
    (cur : AttackedText) (orig : Option AttackedText) (c : ConstraintCache)
    (hwf : c.Wf) : (filter_transformations_uncached cs u cur orig c).2.1.Wf := by
  unfold filter_transformations_uncached
  dsimp only
  exact foldl_touchSet_Wf cur true _ _ (foldl_touchSet_Wf cur false u c hwf)

theorem uncached_capacity (cs : List PostConstraint) (u : List AttackedText)
    (cur : AttackedText) (orig : Option AttackedText) (c : ConstraintCache) :
    (filter_transformations_uncached cs u cur orig c).2.1.capacity = c.capacity := by
  unfold filter_transformations_uncached
  dsimp only
  rw [foldl_touchSet_capacity, foldl_touchSet_capacity]

theorem uncached_log (cs : List PostConstraint) (u : List AttackedText)
    (cur : AttackedText) (orig : Option AttackedText) (c : ConstraintCache) :
    (filter_transformations_uncached cs u cur orig c).2.2 =
      (pipelineTrace cs u cur orig).2 := rfl

theorem frontKeys_uncached (cs : List PostConstraint) (u : List AttackedText)
    (cur : AttackedText) (orig : Option AttackedText) (c : ConstraintCache)
    (K S : List CKey) (hS : S.Nodup) (hFK : FrontKeys S c) (hSK : S ⊆ K)
    (hu : ∀ t ∈ u, cacheKey cur t ∈ K) (hcap : K.length ≤ c.capacity) :
    ∃ S', S'.Nodup ∧ FrontKeys S' (filter_transformations_uncached cs u cur orig c).2.1 ∧
      S ⊆ S' ∧ (∀ t ∈ u, cacheKey cur t ∈ S') ∧ S' ⊆ K := by
  unfold filter_transformations_uncached
  dsimp only
  obtain ⟨S₁, hS₁, hFK₁, hsub₁, hmem₁, hS₁K⟩ :=
    frontKeys_foldl_touchSet cur false K u c S hS hFK hSK hu hcap
  have hu2 : ∀ t ∈ (pipelineTrace cs u cur orig).1, cacheKey cur t ∈ K := by
    intro t ht
    rw [pipelineTrace_fst] at ht
    exact hu t (List.mem_filter.mp ht).1
  obtain ⟨S₂, hS₂, hFK₂, hsub₂, _, hS₂K⟩ :=
    frontKeys_foldl_touchSet cur true K (pipelineTrace cs u cur orig).1 _ S₁
      hS₁ hFK₁ hS₁K hu2 (by rw [foldl_touchSet_capacity]; exact hcap)
  exact ⟨S₂, hS₂, hFK₂, hsub₁.trans hsub₂, fun t ht => hsub₂ (hmem₁ t ht), hS₂K⟩

end TextAttack

namespace TextAttack

/-- Master characterisation of `filter_transformations`: on a well-formed
cache with room for all distinct candidate keys, the call returns exactly
the candidates whose resolved boolean (cached value, or pipeline verdict
when uncached) is true, sorted by rendered text; afterwards every candidate
pair is cached with that boolean; the constraint invocations are exactly the
pipeline run on the uncached candidates; and no entry is created for a pair
that was not filtered. -/
theorem filter_transformations_spec (cs : List PostConstraint) (ts : List AttackedText)
    (cur : AttackedText) (orig : Option AttackedText) (c : ConstraintCache)
    (hwf : c.Wf) (hcap : ((ts.map (cacheKey cur)).dedup).length ≤ c.capacity) :
    (filter_transformations cs ts cur orig c).1 =
        some (sortByText (ts.filter (cacheVerdict cs cur orig c))) ∧
      (∀ t ∈ ts, (filter_transformations cs ts cur orig c).2.1.lookup (cacheKey cur t) =
        some (cacheVerdict cs cur orig c t)) ∧
      (filter_transformations cs ts cur orig c).2.2 =
        (pipelineTrace cs (ts.filter (fun t => !(c.lookup (cacheKey cur t)).isSome))
          cur orig).2 ∧
      (filter_transformations cs ts cur orig c).2.1.Wf ∧
      (filter_transformations cs ts cur orig c).2.1.capacity = c.capacity ∧
      (∀ k, (filter_transformations cs ts cur orig c).2.1.lookup k ≠ none →
        c.lookup k ≠ none ∨ k ∈ ts.map (cacheKey cur)) := by
  have hu_fst := collectUncached_fst cur ts c hwf
  have hu_look := collectUncached_lookup cur ts c hwf
  have hu_wf := collectUncached_Wf cur ts c hwf
  have hu_cap := collectUncached_capacity cur ts c hwf
  have hsub_u : ∀ t ∈ (collectUncached cur ts c).1, t ∈ ts := by
    intro t ht
    rw [hu_fst] at ht
    exact (List.mem_filter.mp ht).1
  have hmiss_mem : ∀ t ∈ ts, ¬(c.lookup (cacheKey cur t)).isSome = true →
      t ∈ (collectUncached cur ts c).1 := by
    intro t ht hc
    rw [hu_fst]
    refine List.mem_filter.mpr ⟨ht, ?_⟩
    have hfalse : (c.lookup (cacheKey cur t)).isSome = false := by
      revert hc
      cases (c.lookup (cacheKey cur t)).isSome <;> simp
    rw [hfalse]
    rfl
  have hval : ∀ t ∈ ts,
      (filter_transformations_uncached cs (collectUncached cur ts c).1 cur orig
        (collectUncached cur ts c).2).2.1.lookup (cacheKey cur t) = none ∨
      (filter_transformations_uncached cs (collectUncached cur ts c).1 cur orig
        (collectUncached cur ts c).2).2.1.lookup (cacheKey cur t) =
        some (cacheVerdict cs cur orig c t) := by
    intro t ht
    by_cases hc : (c.lookup (cacheKey cur t)).isSome
    · have hne : ∀ t' ∈ (collectUncached cur ts c).1,
          cacheKey cur t' ≠ cacheKey cur t := by
        intro t' ht' heq
        have heq' := cacheKey_inj cur heq
        subst heq'
        rw [hu_fst] at ht'
        have h2 := (List.mem_filter.mp ht').2
        rw [hc] at h2
        exact Bool.false_ne_true (by simpa using h2.symm)
      rcases uncached_lookup_not_mem cs _ cur orig _ (cacheKey cur t) hne with h1 | h1
      · exact Or.inl h1
      · right
        rw [h1, hu_look]
        obtain ⟨b, hb⟩ := Option.isSome_iff_exists.mp hc
        rw [hb]
        unfold cacheVerdict
        rw [hb]
        rfl
    · have htu : t ∈ (collectUncached cur ts c).1 := hmiss_mem t ht hc
      rcases uncached_lookup_or cs _ cur orig _ t htu with h1 | h1
      · exact Or.inl h1
      · right
        rw [h1]
        unfold cacheVerdict
        rw [Option.not_isSome_iff_eq_none.mp hc]
        rfl
  have hK : ∀ t ∈ ts, cacheKey cur t ∈ (ts.map (cacheKey cur)).dedup := by
    intro t ht
    rw [List.mem_dedup]
    exact List.mem_map_of_mem _ ht
  obtain ⟨S₁, hS₁, hFK₁, hsub₁, hS₁K, hhit₁⟩ :=
    frontKeys_collectUncached cur ((ts.map (cacheKey cur)).dedup) ts c []
      hwf List.nodup_nil (frontKeys_nil c) (List.nil_subset _) hK hcap
  obtain ⟨S₂, hS₂, hFK₂, hsub₂, hmem₂, hS₂K⟩ :=
    frontKeys_uncached cs (collectUncached cur ts c).1 cur orig
      (collectUncached cur ts c).2 ((ts.map (cacheKey cur)).dedup) S₁ hS₁ hFK₁ hS₁K
      (fun t ht => hK t (hsub_u t ht)) (by rw [hu_cap]; exact hcap)
  have hpresent : ∀ t ∈ ts,
      ((filter_transformations_uncached cs (collectUncached cur ts c).1 cur orig
        (collectUncached cur ts c).2).2.1.lookup (cacheKey cur t)).isSome := by
    intro t ht
    refine hFK₂.lookup_isSome ?_
    by_cases hc : (c.lookup (cacheKey cur t)).isSome
    · exact hsub₂ (hhit₁ t ht hc)
    · exact hmem₂ t (hmiss_mem t ht hc)
  have hsome : ∀ t ∈ ts,
      (filter_transformations_uncached cs (collectUncached cur ts c).1 cur orig
        (collectUncached cur ts c).2).2.1.lookup (cacheKey cur t) =
        some (cacheVerdict cs cur orig c t) := by
    intro t ht
    rcases hval t ht with h1 | h1
    · have h2 := hpresent t ht
      rw [h1] at h2
      simp at h2
    · exact h1
  obtain ⟨hr_fst, hr_look, hr_wf, hr_cap⟩ :=
    readCache_spec cur ts _ (uncached_Wf cs _ cur orig _ hu_wf) hpresent
  have hfiltereq : ts.filter (fun t =>
      ((filter_transformations_uncached cs (collectUncached cur ts c).1 cur orig
        (collectUncached cur ts c).2).2.1.lookup (cacheKey cur t)).getD false) =
      ts.filter (cacheVerdict cs cur orig c) := by
    apply List.filter_congr
    intro t ht
    rw [hsome t ht]
    rfl
  unfold filter_transformations
  dsimp only
  rcases hrc : readCache cur ts
      (filter_transformations_uncached cs (collectUncached cur ts c).1 cur orig
        (collectUncached cur ts c).2).2.1 with ⟨ol, c₃⟩
  have hol : ol = some (ts.filter (fun t =>
      ((filter_transformations_uncached cs (collectUncached cur ts c).1 cur orig
        (collectUncached cur ts c).2).2.1.lookup (cacheKey cur t)).getD false)) := by
    rw [← hr_fst, hrc]
  subst hol
  dsimp only
  have hc₃look : ∀ k, c₃.lookup k =
      (filter_transformations_uncached cs (collectUncached cur ts c).1 cur orig
        (collectUncached cur ts c).2).2.1.lookup k := by
    intro k
    have h2 := hr_look k
    rw [hrc] at h2
    exact h2
  refine ⟨?_, ?_, ?_, ?_, ?_, ?_⟩
  · rw [hfiltereq]
  · intro t ht
    rw [hc₃look]
    exact hsome t ht
  · rw [uncached_log, hu_fst]
  · have h2 := hr_wf
    rw [hrc] at h2
    exact h2
  · have h2 := hr_cap
    rw [hrc] at h2
    have h3 := uncached_capacity cs (collectUncached cur ts c).1 cur orig
      (collectUncached cur ts c).2
    calc c₃.capacity = _ := h2
    _ = _ := h3
    _ = c.capacity := hu_cap
  · intro k hk
    rw [hc₃look] at hk
    by_cases hmem : k ∈ ts.map (cacheKey cur)
    · exact Or.inr hmem
    · left
      have hne : ∀ t' ∈ (collectUncached cur ts c).1, cacheKey cur t' ≠ k := by
        intro t' ht' heq
        exact hmem (heq ▸ List.mem_map_of_mem _ (hsub_u t' ht'))
      rcases uncached_lookup_not_mem cs _ cur orig _ k hne with h1 | h1
      · exact absurd h1 hk
      · rw [h1, hu_look] at hk
        exact hk

end TextAttack

namespace TextAttack

/-! Sorting lemmas and the claim theorems about the filtering engine. -/

theorem sortByText_sorted (l : List AttackedText) : List.Sorted textLe (sortByText l) :=
  List.sorted_insertionSort textLe l

theorem sortByText_perm (l : List AttackedText) : (sortByText l).Perm l :=
  List.perm_insertionSort textLe l

theorem sortByText_eq_of_perm {l₁ l₂ : List AttackedText} (h : l₁.Perm l₂) :
    sortByText l₁ = sortByText l₂ :=
  List.eq_of_perm_of_sorted
    ((sortByText_perm l₁).trans (h.trans (sortByText_perm l₂).symm))
    (sortByText_sorted l₁) (sortByText_sorted l₂)

/-- Claim C1: for every candidate list, current text and original text
(on a well-formed cache whose entries agree with the constraint pipeline and
with room for the distinct candidate keys), `filter_transformations` — and
hence `get_transformations` — returns exactly the candidates accepted by
every post-transformation constraint applied in configured order, sorted by
rendered candidate text, independently of the order in which the
transformation produced the candidates. -/
theorem C1_get_transformations_filters_and_sorts (transformation : Transformation)
    (cs : List PostConstraint) (cur : AttackedText) (orig : Option AttackedText)
    (c : ConstraintCache) (hwf : c.Wf)
    (hcons : ∀ (t : AttackedText) (b : Bool),
      c.lookup (cacheKey cur t) = some b → b = passes_all cs t cur orig)
    (hcap : (((transformation cur orig).map (cacheKey cur)).dedup).length ≤ c.capacity) :
    (get_transformations transformation cs cur orig c).1 =
        some (sortByText ((transformation cur orig).filter
          (fun t => passes_all cs t cur orig))) ∧
      List.Sorted textLe (sortByText ((transformation cur orig).filter
        (fun t => passes_all cs t cur orig))) ∧
      (∀ ts' : List AttackedText, ts'.Perm (transformation cur orig) →
        (filter_transformations cs ts' cur orig c).1 =
          (get_transformations transformation cs cur orig c).1) := by
  have hverd : ∀ t : AttackedText,
      cacheVerdict cs cur orig c t = passes_all cs t cur orig := by
    intro t
    unfold cacheVerdict
    cases hl : c.lookup (cacheKey cur t) with
    | none => rfl
    | some b => exact hcons t b hl
  have hfeq : ∀ ts : List AttackedText,
      ts.filter (cacheVerdict cs cur orig c) =
        ts.filter (fun t => passes_all cs t cur orig) :=
    fun ts => List.filter_congr (fun t _ => hverd t)
  obtain ⟨h1, _, _, _, _, _⟩ :=
    filter_transformations_spec cs (transformation cur orig) cur orig c hwf hcap
  refine ⟨?_, sortByText_sorted _, ?_⟩
  · unfold get_transformations
    rw [h1, hfeq]
  · intro ts' hperm
    have hcap' : ((ts'.map (cacheKey cur)).dedup).length ≤ c.capacity := by
      rw [((hperm.map (cacheKey cur)).dedup).length_eq]
      exact hcap
    obtain ⟨h1', _, _, _, _, _⟩ := filter_transformations_spec cs ts' cur orig c hwf hcap'
    unfold get_transformations
    rw [h1', h1]
    rw [hfeq, hfeq]
    exact congrArg some (sortByText_eq_of_perm (hperm.filter _))

/-- Concrete instance of claim C1: the spec's worked example (reject any
candidate equal to the current text, candidates produced unsorted). -/
theorem C1_witness :
    ((⟨4, []⟩ : ConstraintCache).Wf) ∧
    (get_transformations
        (fun _ _ => [⟨"I like hats"⟩, ⟨"I like dogs"⟩, ⟨"I like cats"⟩])
        [fun t cu _ => decide (t ≠ cu)] ⟨"I like cats"⟩ none ⟨4, []⟩).1 =
      some [⟨"I like dogs"⟩, ⟨"I like hats"⟩] := by
  refine ⟨by decide, ?_⟩
  have h := (C1_get_transformations_filters_and_sorts
    (fun _ _ => [⟨"I like hats"⟩, ⟨"I like dogs"⟩, ⟨"I like cats"⟩])
    [fun t cu _ => decide (t ≠ cu)] ⟨"I like cats"⟩ none ⟨4, []⟩
    (by decide)
    (by
      intro t b hb
      simp [ConstraintCache.lookup] at hb)
    (by decide)).1
  rw [h]
  decide

/-- Claim C2: after `_filter_transformations_uncached`, a present cache
entry's boolean is authoritative for the pipeline verdict (survivors true,
other candidates false, all present when the distinct keys fit the
capacity); entries exist only for filtered pairs; a hit promotes the pair to
the most-recent position without changing any cached boolean; and a call
whose pairs are all cached performs no constraint invocation and keeps every
cached boolean unchanged. -/
theorem C2_cache_entry_authoritative (cs : List PostConstraint) (cur : AttackedText)
    (orig : Option AttackedText) :
    (∀ (u : List AttackedText) (c : ConstraintCache), ∀ t ∈ u, ∀ b : Bool,
      (filter_transformations_uncached cs u cur orig c).2.1.lookup (cacheKey cur t) =
          some b →
        b = passes_all cs t cur orig) ∧
    (∀ (u : List AttackedText) (c : ConstraintCache), c.Wf →
      ((u.map (cacheKey cur)).dedup).length ≤ c.capacity →
      ∀ t ∈ u,
        (filter_transformations_uncached cs u cur orig c).2.1.lookup (cacheKey cur t) =
          some (passes_all cs t cur orig)) ∧
    (∀ (u : List AttackedText) (c : ConstraintCache) (k : CKey),
      (filter_transformations_uncached cs u cur orig c).2.1.lookup k ≠ none →
        c.lookup k ≠ none ∨ k ∈ u.map (cacheKey cur)) ∧
    (∀ (c : ConstraintCache) (k : CKey) (v : Bool), c.Wf → c.lookup k = some v →
      (cacheTouch c k).entries.head? = some (k, v) ∧
      ∀ k', (cacheTouch c k).lookup k' = c.lookup k') ∧
    (∀ (ts : List AttackedText) (c : ConstraintCache), c.Wf →
      (∀ t ∈ ts, (c.lookup (cacheKey cur t)).isSome) →
      (filter_transformations cs ts cur orig c).2.2 = [] ∧
      ∀ k, (filter_transformations cs ts cur orig c).2.1.lookup k = c.lookup k) := by
  refine ⟨?_, ?_, ?_, ?_, ?_⟩
  · intro u c t ht b hb
    rcases uncached_lookup_or cs u cur orig c t ht with h1 | h1
    · rw [h1] at hb
      exact absurd hb (by simp)
    · rw [h1] at hb
      exact (Option.some.inj hb).symm
  · intro u c hwf hcap t ht
    obtain ⟨S', _, hFK', _, hmem', _⟩ :=
      frontKeys_uncached cs u cur orig c ((u.map (cacheKey cur)).dedup) []
        List.nodup_nil (frontKeys_nil c) (List.nil_subset _)
        (fun t' ht' => List.mem_dedup.mpr (List.mem_map_of_mem _ ht')) hcap
    have hpres := hFK'.lookup_isSome (hmem' t ht)
    rcases uncached_lookup_or cs u cur orig c t ht with h1 | h1
    · rw [h1] at hpres
      simp at hpres
    · exact h1
  · intro u c k hk
    by_cases hmem : k ∈ u.map (cacheKey cur)
    · exact Or.inr hmem
    · left
      have hne : ∀ t' ∈ u, cacheKey cur t' ≠ k := by
        intro t' ht' heq
        exact hmem (heq ▸ List.mem_map_of_mem _ ht')
      rcases uncached_lookup_not_mem cs u cur orig c k hne with h1 | h1
      · exact absurd h1 hk
      · rw [h1] at hk
        exact hk
  · intro c k v hwf hv
    have hsome : (c.lookup k).isSome := by rw [hv]; rfl
    refine ⟨?_, fun k' => cacheTouch_lookup c k k' hwf hsome⟩
    rw [cacheTouch_eq c k hwf hsome]
    unfold ConstraintCache.getPromote
    cases hf : c.entries.find? (fun e => e.1 == k) with
    | none =>
      unfold ConstraintCache.lookup at hv
      rw [hf] at hv
      simp at hv
    | some e =>
      have he2 : e.2 = v := by
        unfold ConstraintCache.lookup at hv
        rw [hf] at hv
        simpa using hv
      dsimp only
      rw [List.head?_cons, he2]
  · intro ts c hwf hall
    have hu : (collectUncached cur ts c).1 = [] := by
      rw [collectUncached_fst cur ts c hwf, List.filter_eq_nil_iff]
      intro t ht
      rw [hall t ht]
      exact (by simp)
    have hall' : ∀ t ∈ ts,
        ((collectUncached cur ts c).2.lookup (cacheKey cur t)).isSome := by
      intro t ht
      rw [collectUncached_lookup cur ts c hwf]
      exact hall t ht
    obtain ⟨hr_fst, hr_look, _, _⟩ :=
      readCache_spec cur ts _ (collectUncached_Wf cur ts c hwf) hall'
    unfold filter_transformations
    dsimp only
    rw [hu]
    unfold filter_transformations_uncached
    rw [pipelineTrace_nil_input]
    dsimp only [List.foldl_nil]
    rcases hrc : readCache cur ts (collectUncached cur ts c).2 with ⟨ol, c₃⟩
    have hol : ol = some (ts.filter (fun t =>
        ((collectUncached cur ts c).2.lookup (cacheKey cur t)).getD false)) := by
      rw [← hr_fst, hrc]
    subst hol
    dsimp only
    refine ⟨rfl, ?_⟩
    intro k
    have h2 := hr_look k
    rw [hrc] at h2
    calc c₃.lookup k = (collectUncached cur ts c).2.lookup k := h2
    _ = c.lookup k := collectUncached_lookup cur ts c hwf k

/-- Concrete instance of claim C2: after filtering two uncached candidates
against a constraint rejecting candidates equal to the current text, the
surviving pair is cached `true`. -/
theorem C2_witness :
    ((⟨2, []⟩ : ConstraintCache).Wf) ∧
    (filter_transformations_uncached [fun t cu _ => decide (t ≠ cu)]
        [⟨"a"⟩, ⟨"b"⟩] ⟨"b"⟩ none ⟨2, []⟩).2.1.lookup (cacheKey ⟨"b"⟩ ⟨"a"⟩) =
      some (passes_all [fun t cu _ => decide (t ≠ cu)] ⟨"a"⟩ ⟨"b"⟩ none) := by
  refine ⟨by decide, ?_⟩
  exact (C2_cache_entry_authoritative [fun t cu _ => decide (t ≠ cu)] ⟨"b"⟩ none).2.1
    [⟨"a"⟩, ⟨"b"⟩] ⟨2, []⟩ (by decide) (by decide) ⟨"a"⟩ (by decide)

/-- Claim C3 (counterexample): with cache capacity 1 and two distinct
candidates, a second call of `filter_transformations` on identical arguments
re-invokes the constraint pipeline — its invocation trace is nonempty — so
the claimed unconditional cache idempotence fails; it holds only when the
distinct candidate keys fit the cache capacity. -/
theorem C3_counterexample :
    ((filter_transformations [fun _ _ _ => true] [⟨"a"⟩, ⟨"b"⟩] ⟨"c"⟩ none
        ((filter_transformations [fun _ _ _ => true] [⟨"a"⟩, ⟨"b"⟩] ⟨"c"⟩ none
          ⟨1, []⟩).2.1)).2.2).length = 1 := by
  rfl

/-- Claim C3 (amended): when the number of distinct candidate cache keys
does not exceed the cache capacity, a second `filter_transformations` call
with identical arguments performs no constraint invocation (every pair is a
cache hit) and returns the same defined result as the first call. -/
theorem C3_second_call_all_hits (cs : List PostConstraint) (ts : List AttackedText)
    (cur : AttackedText) (orig : Option AttackedText) (c : ConstraintCache)
    (hwf : c.Wf) (hcap : ((ts.map (cacheKey cur)).dedup).length ≤ c.capacity) :
    (filter_transformations cs ts cur orig
        ((filter_transformations cs ts cur orig c).2.1)).2.2 = [] ∧
    (filter_transformations cs ts cur orig
        ((filter_transformations cs ts cur orig c).2.1)).1 =
      (filter_transformations cs ts cur orig c).1 ∧
    ∃ l, (filter_transformations cs ts cur orig c).1 = some l := by
  obtain ⟨h1, h2, _, h4, h5, _⟩ := filter_transformations_spec cs ts cur orig c hwf hcap
  have hcap' : ((ts.map (cacheKey cur)).dedup).length ≤
      ((filter_transformations cs ts cur orig c).2.1).capacity := by
    rw [h5]
    exact hcap
  obtain ⟨h1', _, h3', _, _, _⟩ := filter_transformations_spec cs ts cur orig _ h4 hcap'
  refine ⟨?_, ?_, ⟨_, h1⟩⟩
  · rw [h3']
    have hnil : ts.filter (fun t =>
        !(((filter_transformations cs ts cur orig c).2.1).lookup
          (cacheKey cur t)).isSome) = [] := by
      rw [List.filter_eq_nil_iff]
      intro t ht
      rw [h2 t ht]
      simp
    rw [hnil, pipelineTrace_nil_input]
  · rw [h1', h1]
    have hfeq : ts.filter (cacheVerdict cs cur orig
        ((filter_transformations cs ts cur orig c).2.1)) =
        ts.filter (cacheVerdict cs cur orig c) := by
      apply List.filter_congr
      intro t ht
      unfold cacheVerdict
      rw [h2 t ht]
      rfl
    rw [hfeq]

/-- Concrete instance of claim C3 (amended): with capacity 2 the second
identical call performs no constraint invocation. -/
theorem C3_witness :
    ((⟨2, []⟩ : ConstraintCache).Wf) ∧
    (filter_transformations [fun _ _ _ => true] [⟨"a"⟩, ⟨"b"⟩] ⟨"c"⟩ none
        ((filter_transformations [fun _ _ _ => true] [⟨"a"⟩, ⟨"b"⟩] ⟨"c"⟩ none
          ⟨2, []⟩).2.1)).2.2 = [] := by
  refine ⟨by decide, ?_⟩
  exact (C3_second_call_all_hits [fun _ _ _ => true] [⟨"a"⟩, ⟨"b"⟩] ⟨"c"⟩ none ⟨2, []⟩
    (by decide) (by decide)).1

end TextAttack

namespace TextAttack

theorem pipelineTrace_log_spec (cur : AttackedText) (orig : Option AttackedText) :
    ∀ (cs : List PostConstraint) (ts : List AttackedText),
      (∀ e ∈ (pipelineTrace cs ts cur orig).2, e.input ≠ [] ∧
        e.output = call_many e.constraint e.input cur orig) ∧
      ((pipelineTrace cs ts cur orig).2.map ConstraintCall.constraint =
        cs.take (pipelineTrace cs ts cur orig).2.length) ∧
      List.Chain' (fun a b => b.input = a.output) (pipelineTrace cs ts cur orig).2 ∧
      (∀ e, (pipelineTrace cs ts cur orig).2.head? = some e → e.input = ts)
  | [], ts => by
    refine ⟨by simp [pipelineTrace], by simp [pipelineTrace], by simp [pipelineTrace], ?_⟩
    intro e he
    simp [pipelineTrace] at he
  | C :: rest, ts => by
    unfold pipelineTrace
    by_cases h0 : ts.length = 0
    · simp only [if_pos h0]
      refine ⟨by simp, by simp, by simp, ?_⟩
      intro e he
      simp at he
    · simp only [if_neg h0]
      obtain ⟨ih1, ih2, ih3, ih4⟩ :=
        pipelineTrace_log_spec cur orig rest (call_many C ts cur orig)
      refine ⟨?_, ?_, ?_, ?_⟩
      · intro e he
        rcases List.mem_cons.mp he with rfl | he
        · exact ⟨fun h => h0 (by rw [show ts = [] from h]; rfl), rfl⟩
        · exact ih1 e he
      · rw [List.map_cons, List.length_cons, List.take_succ_cons, ih2]
      · rw [List.chain'_cons']
        refine ⟨?_, ih3⟩
        intro b hb
        exact ih4 b hb
      · intro e he
        rw [List.head?_cons] at he
        have he' := Option.some.inj he
        rw [← he']

/-- Claim C4: `_filter_transformations_uncached` applies the
post-transformation constraints as a pipeline in configured order — each
invoked constraint receives exactly the previous constraint's output, the
invoked constraints are a prefix of the configured list — no constraint's
`call_many` is ever invoked on an empty candidate set (in particular an
empty initial candidate list invokes nothing), and the surviving set is
exactly the candidates every constraint accepts. -/
theorem C4_pipeline_order_and_short_circuit (cs : List PostConstraint)
    (ts : List AttackedText) (cur : AttackedText) (orig : Option AttackedText) :
    (∀ e ∈ (filter_transformations_uncached cs ts cur orig ⟨0, []⟩).2.2, e.input ≠ []) ∧
    (∀ e ∈ (pipelineTrace cs ts cur orig).2,
      e.output = call_many e.constraint e.input cur orig) ∧
    ((pipelineTrace cs ts cur orig).2.map ConstraintCall.constraint =
      cs.take (pipelineTrace cs ts cur orig).2.length) ∧
    List.Chain' (fun a b => b.input = a.output) (pipelineTrace cs ts cur orig).2 ∧
    (∀ e, (pipelineTrace cs ts cur orig).2.head? = some e → e.input = ts) ∧
    (ts = [] → (pipelineTrace cs ts cur orig).2 = []) ∧
    (filter_transformations_uncached cs ts cur orig ⟨0, []⟩).1 =
      ts.filter (fun t => passes_all cs t cur orig) := by
  obtain ⟨h1, h2, h3, h4⟩ := pipelineTrace_log_spec cur orig cs ts
  refine ⟨?_, fun e he => (h1 e he).2, h2, h3, h4, ?_, ?_⟩
  · intro e he
    rw [uncached_log] at he
    exact (h1 e he).1
  · intro h
    subst h
    rw [pipelineTrace_nil_input]
  · show (pipelineTrace cs ts cur orig).1 = _
    exact pipelineTrace_fst cur orig cs ts

/-- Concrete instance of claim C4: a constraint that rejects everything
short-circuits the pipeline — the second constraint is never invoked, and an
empty candidate list produces no invocation at all. -/
theorem C4_witness :
    (pipelineTrace [fun _ _ _ => false, fun _ _ _ => true]
      ([] : List AttackedText) ⟨"c"⟩ none).2 = [] :=
  (C4_pipeline_order_and_short_circuit [fun _ _ _ => false, fun _ _ _ => true]
    [] ⟨"c"⟩ none).2.2.2.2.2.1 rfl

end TextAttack

namespace TextAttack

/-! Lemmas about the dataset traversal, and the claims about skipping,
bounds errors, empty index sequences and construction. -/

theorem getExamplesLoop_in_bounds (gf : GoalFunction) (ds : Dataset) :
    ∀ idxs : List Nat, (∀ i ∈ idxs, i < ds.data.length) →
      (getExamplesLoop gf ds idxs).2 = none ∧
      (getExamplesLoop gf ds idxs).1.length = idxs.length ∧
      (∀ j i, idxs.get? j = some i →
        ∃ e, ds.data.get? i = some e ∧
          (getExamplesLoop gf ds idxs).1.get? j = some (processExample gf e.1 e.2))
  | [], _ => ⟨rfl, rfl, by intro j i h; simp at h⟩
  | i :: rest, h => by
    have hi : i < ds.data.length := h i (List.mem_cons_self _ _)
    cases hget : ds.data.get? i with
    | none =>
      rw [List.get?_eq_none] at hget
      omega
    | some e =>
      unfold getExamplesLoop
      rw [hget]
      dsimp only
      obtain ⟨ih1, ih2, ih3⟩ :=
        getExamplesLoop_in_bounds gf ds rest (fun i' hi' => h i' (List.mem_cons_of_mem _ hi'))
      refine ⟨ih1, by simp [ih2], ?_⟩
      intro j i' hj
      cases j with
      | zero =>
        rw [List.get?_cons_zero] at hj
        have hj' := Option.some.inj hj
        subst hj'
        exact ⟨e, hget, by rw [List.get?_cons_zero]⟩
      | succ j' =>
        rw [List.get?_cons_succ] at hj
        obtain ⟨e', he', hres⟩ := ih3 j' i' hj
        exact ⟨e', he', by rw [List.get?_cons_succ]; exact hres⟩

theorem getExamplesLoop_error (gf : GoalFunction) (ds : Dataset) :
    ∀ (pre : List Nat) (i : Nat) (post : List Nat),
      (∀ j ∈ pre, j < ds.data.length) → ds.data.length ≤ i →
      (getExamplesLoop gf ds (pre ++ i :: post)).2 =
          some (mkIndexErrorMsg ds.data.length i) ∧
        (getExamplesLoop gf ds (pre ++ i :: post)).1.length = pre.length
  | [], i, post, _, hi => by
    have hget : ds.data.get? i = none := List.get?_eq_none.mpr hi
    rw [List.nil_append]
    unfold getExamplesLoop
    rw [hget]
    exact ⟨rfl, rfl⟩
  | j :: pre, i, post, hpre, hi => by
    have hj : j < ds.data.length := hpre j (List.mem_cons_self _ _)
    cases hget : ds.data.get? j with
    | none =>
      rw [List.get?_eq_none] at hget
      omega
    | some e =>
      rw [List.cons_append]
      unfold getExamplesLoop
      rw [hget]
      dsimp only
      obtain ⟨ih1, ih2⟩ := getExamplesLoop_error gf ds pre i post
        (fun j' hj' => hpre j' (List.mem_cons_of_mem _ hj')) hi
      exact ⟨ih1, by simp [ih2]⟩

/-- Claim C5: over an in-bounds traversal, every example whose initial
goal-function evaluation reports success has the ground-truth output
substituted into its recorded output and is yielded as exactly one Skipped
outcome at its position; `attack_one` is invoked exactly on the
non-successful initial results, so never for an already-successful one,
whose outcome is yielded instead. -/
theorem C5_successful_initial_state_skipped (gf : GoalFunction)
    (search_method : SearchMethod) (ds : Dataset) (indices : Option (List Nat))
    (hin : ∀ i ∈ effectiveIndices indices ds.data.length, i < ds.data.length) :
    (attack_dataset gf search_method ds indices).2.1 = none ∧
    (attack_dataset gf search_method ds indices).1.length =
      (effectiveIndices indices ds.data.length).length ∧
    (∀ j i, (effectiveIndices indices ds.data.length).get? j = some i →
      ∃ e, ds.data.get? i = some e ∧
        ((gf ⟨e.1⟩ e.2).succeeded = true →
          (attack_dataset gf search_method ds indices).1.get? j =
            some (.skipped { gf ⟨e.1⟩ e.2 with output := e.2 }) ∧
          ({ gf ⟨e.1⟩ e.2 with output := e.2 } : GoalFunctionResult).succeeded = true) ∧
        ((gf ⟨e.1⟩ e.2).succeeded = false →
          (attack_dataset gf search_method ds indices).1.get? j =
            some (attack_one search_method (gf ⟨e.1⟩ e.2)))) ∧
    (attack_dataset gf search_method ds indices).2.2 =
      (get_examples_from_dataset gf ds indices).1.filter (fun r => !r.succeeded) ∧
    (∀ r ∈ (attack_dataset gf search_method ds indices).2.2, r.succeeded = false) := by
  obtain ⟨h1, h2, h3⟩ :=
    getExamplesLoop_in_bounds gf ds (effectiveIndices indices ds.data.length) hin
  refine ⟨h1, ?_, ?_, rfl, ?_⟩
  · show ((get_examples_from_dataset gf ds indices).1.map _).length = _
    rw [List.length_map]
    exact h2
  · intro j i hj
    obtain ⟨e, hget, hres⟩ := h3 j i hj
    refine ⟨e, hget, ?_, ?_⟩
    · intro hsucc
      have hres' : (get_examples_from_dataset gf ds indices).1.get? j =
          some (processExample gf e.1 e.2) := hres
      constructor
      · show ((get_examples_from_dataset gf ds indices).1.map _).get? j = _
        rw [List.get?_map, hres']
        dsimp only [processExample]
        simp [hsucc]
      · exact hsucc
    · intro hfail
      have hres' : (get_examples_from_dataset gf ds indices).1.get? j =
          some (processExample gf e.1 e.2) := hres
      show ((get_examples_from_dataset gf ds indices).1.map _).get? j = _
      rw [List.get?_map, hres']
      dsimp only [processExample]
      simp [hfail]
  · intro r hr
    have h4 := (List.mem_filter.mp hr).2
    revert h4
    cases r.succeeded <;> simp

/-- Concrete instance of claim C5: a two-example dataset whose first example
is already misclassified yields a Skipped outcome carrying the ground
truth. -/
theorem C5_witness :
    (∀ i ∈ effectiveIndices none
        ((⟨[("x", 7), ("y", 3)], none⟩ : Dataset)).data.length,
      i < ((⟨[("x", 7), ("y", 3)], none⟩ : Dataset)).data.length) ∧
    (attack_dataset (fun t _ => ⟨t, 0, decide (t.text = "x"), 0, 1⟩)
        (fun r => ({ r with succeeded := true }, 5))
        ⟨[("x", 7), ("y", 3)], none⟩ none).2.1 = none := by
  refine ⟨by decide, ?_⟩
  exact (C5_successful_initial_state_skipped
    (fun t _ => ⟨t, 0, decide (t.text = "x"), 0, 1⟩)
    (fun r => ({ r with succeeded := true }, 5))
    ⟨[("x", 7), ("y", 3)], none⟩ none (by decide)).1

/-- Claim C6: a traversal reaching an out-of-bounds index yields the
in-bounds prefix, then stops with the `IndexError` whose message contains
both the offending index and the dataset size; `attack_dataset` propagates
the same error uncaught. -/
theorem C6_out_of_bounds_index_error (gf : GoalFunction)
    (search_method : SearchMethod) (ds : Dataset) (indices : Option (List Nat))
    (pre : List Nat) (i : Nat) (post : List Nat)
    (hsplit : effectiveIndices indices ds.data.length = pre ++ i :: post)
    (hpre : ∀ j ∈ pre, j < ds.data.length) (hi : ds.data.length ≤ i) :
    (get_examples_from_dataset gf ds indices).2 =
        some (mkIndexErrorMsg ds.data.length i) ∧
      (attack_dataset gf search_method ds indices).2.1 =
        some (mkIndexErrorMsg ds.data.length i) ∧
      (get_examples_from_dataset gf ds indices).1.length = pre.length ∧
      (∃ s t : List Char, (mkIndexErrorMsg ds.data.length i).data =
        s ++ (toString i).data ++ t) ∧
      (∃ s t : List Char, (mkIndexErrorMsg ds.data.length i).data =
        s ++ (toString ds.data.length).data ++ t) := by
  obtain ⟨h1, h2⟩ := getExamplesLoop_error gf ds pre i post hpre hi
  refine ⟨?_, ?_, ?_, ?_, ?_⟩
  · unfold get_examples_from_dataset
    rw [hsplit]
    exact h1
  · show (get_examples_from_dataset gf ds indices).2 = _
    unfold get_examples_from_dataset
    rw [hsplit]
    exact h1
  · unfold get_examples_from_dataset
    rw [hsplit]
    exact h2
  · refine ⟨("Out of bounds access of dataset. Size of data is " ++
      toString ds.data.length ++ " but tried to access index ").data, [], ?_⟩
    unfold mkIndexErrorMsg
    simp [String.data_append]
  · refine ⟨("Out of bounds access of dataset. Size of data is " : String).data,
      ((" but tried to access index " : String) ++ toString i).data, ?_⟩
    unfold mkIndexErrorMsg
    simp [String.data_append]

/-- Concrete instance of claim C6: index 5 on a one-element dataset raises
the descriptive bounds error. -/
theorem C6_witness :
    (get_examples_from_dataset (fun t truth => ⟨t, truth, false, 0, 1⟩)
      ⟨[("x", 7)], none⟩ (some [0, 5])).2 = some (mkIndexErrorMsg 1 5) := by
  exact (C6_out_of_bounds_index_error (fun t truth => ⟨t, truth, false, 0, 1⟩)
    (fun r => (r, 0)) ⟨[("x", 7)], none⟩ (some [0, 5]) [0] 5 []
    rfl (by decide) (by decide)).1

/-- Claim C10: passing an explicitly empty indices sequence is treated like
passing no indices at all — the empty sequence is falsy, so the traversal
defaults to all dataset indices in order and yields one outcome per dataset
example. -/
theorem C10_empty_indices_defaults_to_all (gf : GoalFunction)
    (search_method : SearchMethod) (ds : Dataset) :
    get_examples_from_dataset gf ds (some []) =
        get_examples_from_dataset gf ds none ∧
      attack_dataset gf search_method ds (some []) =
        attack_dataset gf search_method ds none ∧
      effectiveIndices (some []) ds.data.length =
        List.range ds.data.length ∧
      (attack_dataset gf search_method ds (some [])).1.length = ds.data.length := by
  refine ⟨rfl, rfl, rfl, ?_⟩
  obtain ⟨_, h2, _⟩ := getExamplesLoop_in_bounds gf ds (List.range ds.data.length)
    (fun i hi => List.mem_range.mp hi)
  show ((get_examples_from_dataset gf ds (some [])).1.map _).length = _
  rw [List.length_map]
  show (getExamplesLoop gf ds (List.range ds.data.length)).1.length = _
  rw [h2, List.length_range]

/-- Claim C7: constructing the attack engine with any of the goal function,
transformation or search method absent fails immediately at construction
with the `NameError` the source raises (the spec's ConfigurationError), so
no engine state is ever built. -/
theorem C7_missing_component_fails (goal_function : Option GoalFunction)
    (constraints : List ConstraintSpec) (transformation : Option TransformationSpec)
    (search_method : Option SearchMethodSpec) (cache_size : Nat)
    (habsent : goal_function = none ∨ transformation = none ∨ search_method = none) :
    ∃ msg, attack_init goal_function constraints transformation search_method cache_size =
      .error (.nameError msg) := by
  cases goal_function with
  | none => exact ⟨_, rfl⟩
  | some gf =>
    cases search_method with
    | none => exact ⟨_, rfl⟩
    | some sm =>
      cases transformation with
      | none => exact ⟨_, rfl⟩
      | some tr => rcases habsent with h | h | h <;> simp at h

/-- Concrete instance of claim C7: a missing goal function aborts
construction with the `NameError`. -/
theorem C7_witness :
    ((none : Option GoalFunction) = none ∨
      (some ⟨true⟩ : Option TransformationSpec) = none ∨
      (some ⟨fun _ => true⟩ : Option SearchMethodSpec) = none) ∧
    ∃ msg, attack_init none [] (some ⟨true⟩) (some ⟨fun _ => true⟩) (2 ^ 18) =
      .error (.nameError msg) :=
  ⟨Or.inl rfl, C7_missing_component_fails none [] (some ⟨true⟩)
    (some ⟨fun _ => true⟩) (2 ^ 18) (Or.inl rfl)⟩

end TextAttack


namespace WED

/-! Lemmas about the threshold checks of
`WordEmbeddingDistance._check_constraint` and the claims about zero
thresholds and the loop rebinding. -/

theorem mseCheck_mcs_irrel (iuw csd : Bool) (mcs mcs' mmd : Option ℚ)
    (w2i : String → Option Nat) (csim mdist : Nat → Nat → ℚ)
    (x_id a_id : Nat) (x xa : String) :
    mseCheck ⟨iuw, csd, mcs, mmd, w2i, csim, mdist⟩ x_id a_id x xa =
      mseCheck ⟨iuw, csd, mcs', mmd, w2i, csim, mdist⟩ x_id a_id x xa := by
  unfold mseCheck
  cases mmd <;> rfl

theorem mseCheck_zero (iuw csd : Bool) (mcs : Option ℚ)
    (w2i : String → Option Nat) (csim mdist : Nat → Nat → ℚ)
    (x_id a_id : Nat) (x xa : String) :
    mseCheck ⟨iuw, csd, mcs, some 0, w2i, csim, mdist⟩ x_id a_id x xa =
      (.next x xa, []) := by
  unfold mseCheck
  simp

theorem mseCheck_none (iuw csd : Bool) (mcs : Option ℚ)
    (w2i : String → Option Nat) (csim mdist : Nat → Nat → ℚ)
    (x_id a_id : Nat) (x xa : String) :
    mseCheck ⟨iuw, csd, mcs, none, w2i, csim, mdist⟩ x_id a_id x xa =
      (.next x xa, []) := rfl

theorem mseCheck_log_no_cos (iuw csd : Bool) (mcs mmd : Option ℚ)
    (w2i : String → Option Nat) (csim mdist : Nat → Nat → ℚ)
    (x_id a_id : Nat) (x xa : String) :
    Metric.cosSim ∉ (mseCheck ⟨iuw, csd, mcs, mmd, w2i, csim, mdist⟩ x_id a_id x xa).2 := by
  unfold mseCheck
  cases mmd with
  | none => simp
  | some m =>
    dsimp only
    by_cases hm : m ≠ 0
    · rw [if_pos hm]
      split <;> simp
    · rw [if_neg hm]
      simp

theorem cosCheck_zero (iuw csd : Bool) (mmd : Option ℚ)
    (w2i : String → Option Nat) (csim mdist : Nat → Nat → ℚ)
    (x_id a_id : Nat) (x xa : String) :
    cosCheck ⟨iuw, csd, some 0, mmd, w2i, csim, mdist⟩ x_id a_id x xa =
      mseCheck ⟨iuw, csd, some 0, mmd, w2i, csim, mdist⟩ x_id a_id x xa := by
  unfold cosCheck
  simp

theorem cosCheck_none (iuw csd : Bool) (mmd : Option ℚ)
    (w2i : String → Option Nat) (csim mdist : Nat → Nat → ℚ)
    (x_id a_id : Nat) (x xa : String) :
    cosCheck ⟨iuw, csd, none, mmd, w2i, csim, mdist⟩ x_id a_id x xa =
      mseCheck ⟨iuw, csd, none, mmd, w2i, csim, mdist⟩ x_id a_id x xa := rfl

theorem checkStep_cos_zero (iuw csd : Bool) (mmd : Option ℚ)
    (w2i : String → Option Nat) (csim mdist : Nat → Nat → ℚ)
    (tx ta : TokenizedText) (i : Nat) :
    checkStep ⟨iuw, csd, some 0, mmd, w2i, csim, mdist⟩ tx ta i =
      checkStep ⟨iuw, csd, none, mmd, w2i, csim, mdist⟩ tx ta i ∧
    Metric.cosSim ∉ (checkStep ⟨iuw, csd, some 0, mmd, w2i, csim, mdist⟩ tx ta i).2 := by
  unfold checkStep
  cases hx : tx.words.get? i with
  | none => exact ⟨rfl, by simp⟩
  | some xw =>
    cases ha : ta.words.get? i with
    | none => exact ⟨rfl, by simp⟩
    | some aw =>
      dsimp only
      cases hw1 : w2i (if csd then xw else xw.toLower) with
      | none =>
        cases hw2 : w2i (if csd then aw else aw.toLower) with
        | none =>
          refine ⟨rfl, ?_⟩
          repeat' split
          all_goals simp_all
        | some a_id =>
          refine ⟨rfl, ?_⟩
          repeat' split
          all_goals simp_all
      | some x_id =>
        cases hw2 : w2i (if csd then aw else aw.toLower) with
        | none =>
          refine ⟨rfl, ?_⟩
          repeat' split
          all_goals simp_all
        | some a_id =>
          refine ⟨?_, ?_⟩
          · dsimp only
            rw [cosCheck_zero, cosCheck_none, mseCheck_mcs_irrel]
          · dsimp only
            rw [cosCheck_zero]
            apply mseCheck_log_no_cos

theorem checkFrom_cos_zero (iuw csd : Bool) (mmd : Option ℚ)
    (w2i : String → Option Nat) (csim mdist : Nat → Nat → ℚ) :
    ∀ (x xa : PyVal) (idxs : List Nat),
      checkFrom ⟨iuw, csd, some 0, mmd, w2i, csim, mdist⟩ x xa idxs =
        checkFrom ⟨iuw, csd, none, mmd, w2i, csim, mdist⟩ x xa idxs ∧
      Metric.cosSim ∉ (checkFrom ⟨iuw, csd, some 0, mmd, w2i, csim, mdist⟩ x xa idxs).2
  | x, xa, [] => by
    cases x <;> cases xa <;> exact ⟨rfl, by simp [checkFrom]⟩
  | .tok tx, .tok ta, i :: rest => by
    unfold checkFrom
    obtain ⟨hstep, hlog⟩ := checkStep_cos_zero iuw csd mmd w2i csim mdist tx ta i
    rw [← hstep]
    rcases hs : checkStep ⟨iuw, csd, some 0, mmd, w2i, csim, mdist⟩ tx ta i with ⟨out, log⟩
    rw [hs] at hlog
    cases out with
    | ret r => exact ⟨rfl, hlog⟩
    | next x' a' =>
      obtain ⟨ih1, ih2⟩ :=
        checkFrom_cos_zero iuw csd mmd w2i csim mdist (.str x') (.str a') rest
      dsimp only
      refine ⟨?_, ?_⟩
      · rw [ih1]
      · intro hmem
        rcases List.mem_append.mp hmem with hm | hm
        · exact hlog hm
        · exact ih2 hm
  | .tok tx, .str s, i :: rest => by
    refine ⟨rfl, ?_⟩
    unfold checkFrom
    cases hx : tx.words.get? i <;> simp
  | .str s, xa, i :: rest => ⟨rfl, by simp [checkFrom]⟩

theorem cosCheck_mse_zero (iuw csd : Bool) (mcs : Option ℚ)
    (w2i : String → Option Nat) (csim mdist : Nat → Nat → ℚ)
    (x_id a_id : Nat) (x xa : String) :
    cosCheck ⟨iuw, csd, mcs, some 0, w2i, csim, mdist⟩ x_id a_id x xa =
      cosCheck ⟨iuw, csd, mcs, none, w2i, csim, mdist⟩ x_id a_id x xa ∧
    Metric.mseDist ∉
      (cosCheck ⟨iuw, csd, mcs, some 0, w2i, csim, mdist⟩ x_id a_id x xa).2 := by
  unfold cosCheck
  cases mcs with
  | none =>
    rw [mseCheck_zero, mseCheck_none]
    exact ⟨rfl, by simp⟩
  | some m =>
    dsimp only
    by_cases hm : m ≠ 0
    · rw [if_pos hm, if_pos hm]
      dsimp only [get_cos_sim]
      by_cases hlt : csim (min x_id a_id) (max x_id a_id) < m
      · rw [if_pos hlt, if_pos hlt]
        exact ⟨rfl, by simp⟩
      · rw [if_neg hlt, if_neg hlt, mseCheck_zero, mseCheck_none]
        exact ⟨rfl, by simp⟩
    · rw [if_neg hm, if_neg hm, mseCheck_zero, mseCheck_none]
      exact ⟨rfl, by simp⟩

theorem checkStep_mse_zero (iuw csd : Bool) (mcs : Option ℚ)
    (w2i : String → Option Nat) (csim mdist : Nat → Nat → ℚ)
    (tx ta : TokenizedText) (i : Nat) :
    checkStep ⟨iuw, csd, mcs, some 0, w2i, csim, mdist⟩ tx ta i =
      checkStep ⟨iuw, csd, mcs, none, w2i, csim, mdist⟩ tx ta i ∧
    Metric.mseDist ∉ (checkStep ⟨iuw, csd, mcs, some 0, w2i, csim, mdist⟩ tx ta i).2 := by
  unfold checkStep
  cases hx : tx.words.get? i with
  | none => exact ⟨rfl, by simp⟩
  | some xw =>
    cases ha : ta.words.get? i with
    | none => exact ⟨rfl, by simp⟩
    | some aw =>
      dsimp only
      cases hw1 : w2i (if csd then xw else xw.toLower) with
      | none =>
        cases hw2 : w2i (if csd then aw else aw.toLower) with
        | none =>
          refine ⟨rfl, ?_⟩
          repeat' split
          all_goals simp_all
        | some a_id =>
          refine ⟨rfl, ?_⟩
          repeat' split
          all_goals simp_all
      | some x_id =>
        cases hw2 : w2i (if csd then aw else aw.toLower) with
        | none =>
          refine ⟨rfl, ?_⟩
          repeat' split
          all_goals simp_all
        | some a_id => exact cosCheck_mse_zero iuw csd mcs w2i csim mdist x_id a_id _ _

theorem checkFrom_mse_zero (iuw csd : Bool) (mcs : Option ℚ)
    (w2i : String → Option Nat) (csim mdist : Nat → Nat → ℚ) :
    ∀ (x xa : PyVal) (idxs : List Nat),
      checkFrom ⟨iuw, csd, mcs, some 0, w2i, csim, mdist⟩ x xa idxs =
        checkFrom ⟨iuw, csd, mcs, none, w2i, csim, mdist⟩ x xa idxs ∧
      Metric.mseDist ∉ (checkFrom ⟨iuw, csd, mcs, some 0, w2i, csim, mdist⟩ x xa idxs).2
  | x, xa, [] => by
    cases x <;> cases xa <;> exact ⟨rfl, by simp [checkFrom]⟩
  | .tok tx, .tok ta, i :: rest => by
    unfold checkFrom
    obtain ⟨hstep, hlog⟩ := checkStep_mse_zero iuw csd mcs w2i csim mdist tx ta i
    rw [← hstep]
    rcases hs : checkStep ⟨iuw, csd, mcs, some 0, w2i, csim, mdist⟩ tx ta i with ⟨out, log⟩
    rw [hs] at hlog
    cases out with
    | ret r => exact ⟨rfl, hlog⟩
    | next x' a' =>
      obtain ⟨ih1, ih2⟩ :=
        checkFrom_mse_zero iuw csd mcs w2i csim mdist (.str x') (.str a') rest
      dsimp only
      refine ⟨?_, ?_⟩
      · rw [ih1]
      · intro hmem
        rcases List.mem_append.mp hmem with hm | hm
        · exact hlog hm
        · exact ih2 hm
  | .tok tx, .str s, i :: rest => by
    refine ⟨rfl, ?_⟩
    unfold checkFrom
    cases hx : tx.words.get? i <;> simp
  | .str s, xa, i :: rest => ⟨rfl, by simp [checkFrom]⟩

/-- Claim C8: a `min_cos_sim` (respectively `max_mse_dist`) equal to exactly
0 is falsy, so `_check_constraint` never performs the corresponding
comparison: it behaves exactly as if the threshold were absent (`None`), and
a zero threshold can never cause a candidate to be rejected through that
metric. -/
theorem C8_zero_threshold_disables_check (cfg : Config) (x x_adv : TokenizedText) :
    (cfg.min_cos_sim = some 0 →
      check_constraint cfg x x_adv =
        check_constraint { cfg with min_cos_sim := none } x x_adv ∧
      Metric.cosSim ∉ (check_constraint cfg x x_adv).2) ∧
    (cfg.max_mse_dist = some 0 →
      check_constraint cfg x x_adv =
        check_constraint { cfg with max_mse_dist := none } x x_adv ∧
      Metric.mseDist ∉ (check_constraint cfg x x_adv).2) := by
  obtain ⟨iuw, csd, mcs, mmd, w2i, csim, mdist⟩ := cfg
  constructor
  · intro h
    have h' : mcs = some 0 := h
    subst h'
    unfold check_constraint
    cases hidx : x_adv.newly_modified_indices with
    | none => exact ⟨rfl, by simp⟩
    | some idxs =>
      exact checkFrom_cos_zero iuw csd mmd w2i csim mdist (.tok x) (.tok x_adv) idxs
  · intro h
    have h' : mmd = some 0 := h
    subst h'
    unfold check_constraint
    cases hidx : x_adv.newly_modified_indices with
    | none => exact ⟨rfl, by simp⟩
    | some idxs =>
      exact checkFrom_mse_zero iuw csd mcs w2i csim mdist (.tok x) (.tok x_adv) idxs

/-- Concrete instance of claim C8: with `min_cos_sim = 0` the check equals
the `None`-threshold check, and only the MSE comparison can reject. -/
theorem C8_witness :
    (some (0 : ℚ) = some 0) ∧
    check_constraint ⟨true, true, some 0, some 1, fun _ => some 0, fun _ _ => 0, fun _ _ => 5⟩
        ⟨["a"], none⟩ ⟨["b"], some [0]⟩ =
      check_constraint ⟨true, true, none, some 1, fun _ => some 0, fun _ _ => 0, fun _ _ => 5⟩
        ⟨["a"], none⟩ ⟨["b"], some [0]⟩ ∧
    (check_constraint ⟨true, true, some 0, some 1, fun _ => some 0, fun _ _ => 0, fun _ _ => 5⟩
        ⟨["a"], none⟩ ⟨["b"], some [0]⟩).1 = .ok false := by
  refine ⟨rfl, ?_, by rfl⟩
  exact ((C8_zero_threshold_disables_check
    ⟨true, true, some 0, some 1, fun _ => some 0, fun _ _ => 0, fun _ _ => 5⟩
    ⟨["a"], none⟩ ⟨["b"], some [0]⟩).1 rfl).1

theorem mseCheck_fst_ne_ok_true (cfg : Config) (x_id a_id : Nat) (x xa : String) :
    (mseCheck cfg x_id a_id x xa).1 ≠ .ret (.ok true) := by
  unfold mseCheck
  repeat' split
  all_goals simp

theorem cosCheck_fst_ne_ok_true (cfg : Config) (x_id a_id : Nat) (x xa : String) :
    (cosCheck cfg x_id a_id x xa).1 ≠ .ret (.ok true) := by
  unfold cosCheck
  repeat' split
  all_goals first
    | exact mseCheck_fst_ne_ok_true _ _ _ _ _
    | simp

theorem checkStep_fst_ne_ok_true (cfg : Config) (tx ta : TokenizedText) (i : Nat) :
    (checkStep cfg tx ta i).1 ≠ .ret (.ok true) := by
  unfold checkStep
  cases hx : tx.words.get? i with
  | none => simp
  | some xw =>
    cases ha : ta.words.get? i with
    | none => simp
    | some aw =>
      dsimp only
      cases hw1 : cfg.word_embedding_word2index
          (if cfg.cased then xw else xw.toLower) with
      | none =>
        cases hw2 : cfg.word_embedding_word2index
            (if cfg.cased then aw else aw.toLower) with
        | none =>
          repeat' split
          all_goals simp_all
        | some a_id =>
          repeat' split
          all_goals simp_all
      | some x_id =>
        cases hw2 : cfg.word_embedding_word2index
            (if cfg.cased then aw else aw.toLower) with
        | none =>
          repeat' split
          all_goals simp_all
        | some a_id => exact cosCheck_fst_ne_ok_true _ _ _ _ _

/-- Claim C9: the loop of `_check_constraint` rebinds `x` and `x_adv` to the
single words at the first modified index, so for a candidate with two or
more newly modified indices the check can never return true: whenever the
first iteration continues, the second iteration reaches `.words` on a
string and fails with `AttributeError` instead of comparing the words at
the remaining indices. -/
theorem C9_rebinding_breaks_second_iteration (cfg : Config) (x x_adv : TokenizedText)
    (i j : Nat) (rest : List Nat)
    (hidx : x_adv.newly_modified_indices = some (i :: j :: rest)) :
    (check_constraint cfg x x_adv).1 ≠ .ok true ∧
    (∀ (x' a' : String) (log : List Metric),
      checkStep cfg x x_adv i = (.next x' a', log) →
      (check_constraint cfg x x_adv).1 = .error .attributeError) := by
  unfold check_constraint
  rw [hidx]
  unfold checkFrom
  rcases hs : checkStep cfg x x_adv i with ⟨out, log⟩
  cases out with
  | ret r =>
    dsimp only
    constructor
    · intro hr
      refine checkStep_fst_ne_ok_true cfg x x_adv i ?_
      rw [hs, hr]
    · intro x' a' log' hnext
      simp at hnext
  | next x' a' =>
    have hstr : checkFrom cfg (.str x') (.str a') (j :: rest) =
        (.error .attributeError, ([] : List Metric)) := rfl
    dsimp only
    rw [hstr]
    exact ⟨by simp, fun _ _ _ _ => rfl⟩

/-- Concrete instance of claim C9: two newly modified indices with unknown
words make the second iteration fail with `AttributeError`. -/
theorem C9_witness :
    (check_constraint ⟨true, true, none, none, fun _ => none, fun _ _ => 0, fun _ _ => 0⟩
      ⟨["a", "b"], none⟩ ⟨["c", "d"], some [0, 1]⟩).1 = .error .attributeError := by
  exact (C9_rebinding_breaks_second_iteration
    ⟨true, true, none, none, fun _ => none, fun _ _ => 0, fun _ _ => 0⟩
    ⟨["a", "b"], none⟩ ⟨["c", "d"], some [0, 1]⟩ 0 1 [] rfl).2 "a" "c" [] rfl

end WED
